import Mathlib

/-!
Verification development for the peewee_migrate repository.

The development shallowly embeds the schema-diff engine (`peewee_migrate/auto.py`),
the schema mutator (`peewee_migrate/migrator.py`) and the migration runner
(`peewee_migrate/router.py`).  Python dictionaries are embedded as association
lists with Python's insertion-order update semantics; the generated migration
code strings are embedded as tagged operations carrying exactly the parameters
the source interpolates into the strings.

Behaviour of the external peewee / playhouse collaborators that the source
builds on (`playhouse.reflection.Column.get_field_parameters`, `pw.sort_models`,
`Metadata.fields_to_index`) is embedded from those libraries' semantics, since
only their interface is relevant to this repository.
-/

namespace PM

/-- Python values that appear in field-parameter dictionaries: booleans,
integers and (rendered) strings.  Comparison of parameters in the source uses
Python equality of these values. -/
inductive PValue where
  | pbool : Bool → PValue
  | pnat : Nat → PValue
  | pstr : String → PValue
deriving DecidableEq, Repr

/-- Python truthiness of a parameter value (used by `bool(params.pop(...))`). -/
def truthy : PValue → Bool
  | .pbool b => b
  | .pnat n => decide (n ≠ 0)
  | .pstr s => decide (s ≠ "")

/-- A Python dict of field parameters: an association list with insertion
order; keys are unique by construction of the operations below. -/
abbrev PDict := List (String × PValue)

/-- `d[k] = v` with Python dict semantics: overwrite in place when the key is
present, append otherwise. -/
def dset (d : PDict) (k : String) (v : PValue) : PDict :=
  if d.any (fun p => p.1 = k) then d.map (fun p => if p.1 = k then (k, v) else p)
  else d ++ [(k, v)]

/-- `d.pop(k, None)`'s effect on the dict: remove all entries with key `k`. -/
def dpop (d : PDict) (k : String) : PDict :=
  d.filter (fun p => p.1 ≠ k)

/-- `d.get(k)`: the value stored at `k`, if any. -/
def dget (d : PDict) (k : String) : Option PValue :=
  (d.find? (fun p => p.1 = k)).map Prod.snd

/-- `d.update(upd)`: fold the updates left to right. -/
def dmerge (d : PDict) (upd : PDict) : PDict :=
  upd.foldl (fun acc kv => dset acc kv.1 kv.2) d

/-- Foreign-key relation data of a `pw.ForeignKeyField`: the referenced table,
the referenced field's name (`rel_field.name`) and whether the reference is the
sentinel self-reference (`rel_model == field.model`). -/
structure FKRel where
  relTable : String
  relFieldName : String
  selfRef : Bool
deriving DecidableEq, Repr

/-- The declared type class of a field, as collapsed by `find_field_type`
(custom subclasses are mapped to their peewee base class), together with the
type-specific attributes that `FIELD_TO_PARAMS` in auto.py reads off it. -/
inductive FieldClass where
  | charField (maxLength : Nat)
  | integerField
  | autoField
  | booleanField
  | dateField
  | textField
  | decimalField (autoRound : Bool) (decimalPlaces : Nat) (maxDigits : Nat) (rounding : String)
  | dateTimeField (formatsOverride : Option String)
  | foreignKeyField (rel : FKRel) (onDelete : Option String) (onUpdate : Option String)
deriving DecidableEq, Repr

/-- The name of the field class, i.e. the identity `find_field_type` compares. -/
def findFieldTypeName : FieldClass → String
  | .charField _ => "CharField"
  | .integerField => "IntegerField"
  | .autoField => "AutoField"
  | .booleanField => "BooleanField"
  | .dateField => "DateField"
  | .textField => "TextField"
  | .decimalField _ _ _ _ => "DecimalField"
  | .dateTimeField _ => "DateTimeField"
  | .foreignKeyField _ _ _ => "ForeignKeyField"

/-- Whether the class is `pw.ForeignKeyField` (the `field_class is
ForeignKeyField` test of reflection's `Column`). -/
def FieldClass.isFK : FieldClass → Bool
  | .foreignKeyField _ _ _ => true
  | _ => false

/-- Whether the class is `pw.AutoField` (`issubclass(field_class, AutoField)`). -/
def FieldClass.isAuto : FieldClass → Bool
  | .autoField => true
  | _ => false

/-- `FIELD_TO_PARAMS` from auto.py: extra migration parameters per field class.
`fk_to_params` contributes `on_delete` / `on_update` when set, `dtf_to_params`
contributes `formats` when the field's formats attribute is not a list. -/
def fieldToParams : FieldClass → PDict
  | .charField n => [("max_length", .pnat n)]
  | .decimalField ar dp md r =>
      [("auto_round", .pbool ar), ("decimal_places", .pnat dp),
       ("max_digits", .pnat md), ("rounding", .pstr r)]
  | .foreignKeyField _ od ou =>
      (match od with | some d => [("on_delete", .pstr d)] | none => []) ++
      (match ou with | some u => [("on_update", .pstr u)] | none => [])
  | .dateTimeField (some f) => [("formats", .pstr f)]
  | _ => []

/-- A peewee field as the diff engine sees it (one element of
`_meta.sorted_fields`).  `default` holds the rendered non-callable default
(`repr(field.db_value(field.default))`), `none` when the default is absent or
callable. -/
structure Field where
  name : String
  columnName : String
  fclass : FieldClass
  null : Bool
  primaryKey : Bool
  index : Bool
  unique : Bool
  default : Option PValue
deriving DecidableEq, Repr

/-- The foreign-key relation of a field, when it is a foreign key. -/
def Field.fkRel (f : Field) : Option FKRel :=
  match f.fclass with
  | .foreignKeyField rel _ _ => some rel
  | _ => none

/-- The `rel_model` marker auto.py's `Column.__init__` stores: the sentinel
self marker, or a registry lookup of the referenced table.  (In the source the
marker is a quoted code snippet; only its identity matters for diffing.) -/
def relModelStr (rel : FKRel) : String :=
  if rel.selfRef then "self" else "migrator.orm[" ++ rel.relTable ++ "]"

/-- `playhouse.reflection.Column.get_field_parameters` for a column built by
auto.py's `Column.__init__` (which passes the field's name, class, nullability,
primary-key flag, column name, index and unique flags, and never a default, so
the reflection-level `default`/`constraints` branch is dead). -/
def columnSuperParams (f : Field) (extras : PDict) : PDict :=
  let p := extras
  let p := if f.null then dset p "null" (.pbool true) else p
  let p := if f.fclass.isFK || decide (f.name ≠ f.columnName) then
    dset p "column_name" (.pstr f.columnName) else p
  let p := if f.primaryKey && !f.fclass.isAuto then dset p "primary_key" (.pbool true) else p
  let p := match f.fclass with
    | .foreignKeyField rel _ _ =>
        let p := dset p "model" (.pstr (relModelStr rel))
        if decide (rel.relFieldName ≠ "") then dset p "field" (.pstr rel.relFieldName) else p
    | _ => p
  if !(f.fclass.isAuto || f.primaryKey) then
    if f.unique then dset p "unique" (.pstr "True")
    else if f.index && !f.fclass.isFK then dset p "index" (.pstr "True")
    else p
  else p

/-- The extra parameters `compare_fields` preloads into the column:
the raw index/unique flags, updated with `FIELD_TO_PARAMS` by `Column.__init__`. -/
def compareExtras (f : Field) : PDict :=
  dmerge [("index", .pbool f.index), ("unique", .pbool f.unique)] (fieldToParams f.fclass)

/-- auto.py `Column.get_field_parameters`: the reflection parameters, minus the
back-reference, plus the rendered default; in change mode the nullability and
normalized boolean index/unique flags are written and the `default`,
`on_delete` and `on_update` parameters are popped. -/
def getFieldParameters (f : Field) (extras : PDict) (change : Bool) : PDict :=
  let p := columnSuperParams f extras
  let p := dpop p "backref"
  let p := match f.default with
    | some v => dset p "default" v
    | none => p
  if change then
    let p := dset p "null" (.pbool f.null)
    let u := truthy ((dget p "unique").getD (.pbool false))
    let p := dset (dpop p "unique") "unique" (.pbool u)
    let i := truthy ((dget p "index").getD (.pbool false))
    let p := dset (dpop p "index") "index" (.pbool (i || u))
    dpop (dpop (dpop p "default") "on_delete") "on_update"
  else p

/-- The parameter keys that change mode pops at the end of
`get_field_parameters`; parameters under other keys survive. -/
def keepChangeKey (k : String) : Bool :=
  !(decide (k = "default") || decide (k = "on_delete") || decide (k = "on_update"))

/-- `compare_fields` from auto.py: a full type change when the declared type
classes differ, otherwise the set difference of the change-mode parameter
items. -/
def compareFields (f1 f2 : Field) : PDict :=
  if decide (findFieldTypeName f1.fclass ≠ findFieldTypeName f2.fclass) then
    [("type", .pbool true)]
  else
    let p1 := getFieldParameters f1 (compareExtras f1) true
    let p2 := getFieldParameters f2 (compareExtras f2) true
    p1.filter (fun kv => decide (kv ∉ p2))

/-- A peewee model as the diff engine sees it: meta name, table name, the
sorted field list and the explicit composite index list (`meta.indexes`). -/
structure Model where
  metaName : String
  className : String
  tableName : String
  fields : List Field
  indexes : List (List String × Bool)
deriving DecidableEq, Repr

/-- The operations a generated migration performs, i.e. the semantic content of
the code strings auto.py emits (`migrator.add_fields(...)` etc.). -/
inductive Op where
  | createModel (model : Model)
  | removeModel (tableName : String)
  | addFields (tableName : String) (fields : List Field)
  | removeFields (tableName : String) (names : List String)
  | changeFields (tableName : String) (fields : List Field)
  | addNotNull (tableName : String) (name : String)
  | dropNotNull (tableName : String) (name : String)
  | addIndex (tableName : String) (columns : List String) (unique : Bool)
  | dropIndex (tableName : String) (columns : List String)
deriving DecidableEq, Repr

/-- `model_fields_gen` from utils.py: the model's sorted fields restricted to
the given names, in sorted-field order. -/
def modelFieldsGen (m : Model) (names : List String) : List Field :=
  m.fields.filter (fun f => names.contains f.name)

/-- The change operations `diff_model_fields` emits for one common field:
nothing when the compare is empty, otherwise one change-fields operation
followed by a not-null toggle when the compare contains a `null` difference. -/
def changeOpsFor (model source : Model) (field : Field) : List Op :=
  match source.fields.find? (fun sf => sf.name = field.name) with
  | none => []
  | some sourceField =>
    let diff := compareFields field sourceField
    if diff.isEmpty then []
    else
      let base := [Op.changeFields model.tableName [field]]
      match dget diff "null" with
      | some v =>
          base ++ [if truthy v then Op.dropNotNull model.tableName field.name
                   else Op.addNotNull model.tableName field.name]
      | none => base

/-- `diff_model_fields` from auto.py: one batched add for the fields only in
the target, one batched drop for the fields only in the source, then per-field
change operations for the common fields. -/
def diffModelFields (model source : Model) : List Op :=
  let modelNames := model.fields.map Field.name
  let sourceNames := source.fields.map Field.name
  let fieldsToAdd := modelNames.filter (fun n => !(sourceNames.contains n))
  let addOps : List Op :=
    if fieldsToAdd.isEmpty then []
    else [Op.addFields model.tableName (modelFieldsGen model fieldsToAdd)]
  let fieldsToRemove := sourceNames.filter (fun n => !(modelNames.contains n))
  let removeOps : List Op :=
    if fieldsToRemove.isEmpty then []
    else [Op.removeFields model.tableName ((modelFieldsGen source fieldsToRemove).map Field.name)]
  let changeOps : List Op :=
    ((model.fields.filter (fun f => sourceNames.contains f.name)).map
      (changeOpsFor model source)).flatten
  addOps ++ removeOps ++ changeOps

/-- An index as produced by peewee's `Metadata.fields_to_index`: its generated
deterministic name, the names of its expression fields and its uniqueness. -/
structure MIndex where
  name : String
  columns : List String
  unique : Bool
deriving DecidableEq, Repr

/-- Resolve one part of a `meta.indexes` entry to a (field name, column name)
pair, through the model's field collection. -/
def resolveIndexField (m : Model) (part : String) : String × String :=
  match m.fields.find? (fun f => f.name = part) with
  | some f => (f.name, f.columnName)
  | none =>
    match m.fields.find? (fun f => f.columnName = part) with
    | some f => (f.name, f.columnName)
    | none => (part, part)

/-- peewee's deterministic generated index name for a model and column names. -/
def indexName (m : Model) (colNames : List String) : String :=
  m.metaName ++ "_" ++ String.intercalate "_" colNames

/-- peewee's `Metadata.fields_to_index`: one single-column index per
non-primary-key field flagged indexed or unique, then one index per explicit
`meta.indexes` entry. -/
def fieldsToIndex (m : Model) : List MIndex :=
  (m.fields.filter (fun f => !f.primaryKey && (f.index || f.unique))).map
    (fun f => { name := indexName m [f.columnName], columns := [f.name], unique := f.unique })
  ++ m.indexes.map (fun idx =>
      let resolved := idx.1.map (resolveIndexField m)
      { name := indexName m (resolved.map Prod.snd),
        columns := resolved.map Prod.fst, unique := idx.2 })

/-- Lexicographic strict order on character lists by code point, Python's
string ordering. -/
def charsLt : List Char → List Char → Bool
  | [], [] => false
  | [], _ :: _ => true
  | _ :: _, [] => false
  | a :: as, b :: bs =>
    if a.toNat < b.toNat then true
    else if b.toNat < a.toNat then false
    else charsLt as bs

/-- Python's `<` on strings. -/
def strLt (a b : String) : Bool := charsLt a.data b.data

/-- Python's `<=` on strings. -/
def strLe (a b : String) : Bool := strLt a b || a == b

/-- Insertion step of the string sort used for Python's `sorted` on names. -/
def insertSorted (s : String) : List String → List String
  | [] => [s]
  | x :: xs => if strLe s x then s :: x :: xs else x :: insertSorted s xs

/-- Python's `sorted` on a list of strings. -/
def sortStrings : List String → List String
  | [] => []
  | x :: xs => insertSorted x (sortStrings xs)

/-- Deduplication (Python's `set`), keeping first occurrences. -/
def dedupStrings : List String → List String
  | [] => []
  | x :: xs => x :: (dedupStrings xs).filter (fun y => decide (y ≠ x))

/-- `diff_model_indexes` from auto.py: drop the index names only in the source,
add the names only in the target, and drop-then-add the common names whose
uniqueness or column set changed. -/
def diffModelIndexes (model source : Model) : List Op :=
  let mIdx := fieldsToIndex model
  let sIdx := fieldsToIndex source
  let mNames := mIdx.map MIndex.name
  let sNames := sIdx.map MIndex.name
  let dropOps := (sortStrings (dedupStrings (sNames.filter (fun n => !(mNames.contains n))))).filterMap
    (fun n => (sIdx.find? (fun i => i.name = n)).map
      (fun i => Op.dropIndex source.tableName i.columns))
  let addOps := (sortStrings (dedupStrings (mNames.filter (fun n => !(sNames.contains n))))).filterMap
    (fun n => (mIdx.find? (fun i => i.name = n)).map
      (fun i => Op.addIndex model.tableName i.columns i.unique))
  let changeOps := ((sortStrings (dedupStrings (mNames.filter (fun n => sNames.contains n)))).map
    (fun n =>
      match mIdx.find? (fun i => i.name = n), sIdx.find? (fun i => i.name = n) with
      | some i1, some i2 =>
          if i1.unique != i2.unique || decide (sortStrings i1.columns ≠ sortStrings i2.columns) then
            [Op.dropIndex source.tableName i2.columns,
             Op.addIndex model.tableName i1.columns i1.unique]
          else []
      | _, _ => [])).flatten
  dropOps ++ addOps ++ changeOps

/-- `diff_model` from auto.py: refuse models with different table names, then
field diff followed by index diff. -/
def diffModel (model source : Model) : Except String (List Op) :=
  if decide (model.tableName ≠ source.tableName) then
    Except.error "Cannot diff models with different table names"
  else Except.ok (diffModelFields model source ++ diffModelIndexes model source)

/-- The models a model's non-deferred foreign keys reference (`_meta.refs`),
resolved inside the given model collection. -/
def modelRefs (ms : List Model) (m : Model) : List Model :=
  m.fields.foldr
    (fun f acc =>
      match f.fclass with
      | .foreignKeyField rel _ _ =>
          if rel.selfRef then m :: acc
          else
            match ms.find? (fun x => x.tableName = rel.relTable) with
            | some r => r :: acc
            | none => acc
      | _ => acc) []

/-- State of peewee's `sort_models` depth-first search: visited models and the
output ordering (referenced models are appended before referencing ones). -/
structure DfsSt where
  seen : List Model
  ord : List Model
deriving Repr

/-- Visit a list of models in order with the given single-model visitor. -/
def dfsListAux (g : Model → DfsSt → DfsSt) : List Model → DfsSt → DfsSt
  | [], st => st
  | r :: rs, st => dfsListAux g rs (g r st)

/-- One `dfs(model)` call of peewee's `sort_models`: skip when the model is
outside the collection or already seen, otherwise mark it seen, visit its
references, and append it to the ordering.  The fuel bounds the visit depth and
never runs out from the top-level call, where it exceeds the collection size. -/
def dfsOne (ms : List Model) : Nat → Model → DfsSt → DfsSt
  | 0, _, st => st
  | fuel+1, m, st =>
    if m ∈ ms ∧ m ∉ st.seen then
      let st2 := dfsListAux (fun r s => dfsOne ms fuel r s) (modelRefs ms m)
        { seen := m :: st.seen, ord := st.ord }
      { seen := st2.seen, ord := st2.ord ++ [m] }
    else st

/-- The root ordering of `sort_models`: the deduplicated models sorted by
(meta name, table name). -/
def modelKey (m : Model) : String × String := (m.metaName, m.tableName)

/-- Key comparison for the root sort. -/
def keyLe (a b : String × String) : Bool :=
  strLt a.1 b.1 || (a.1 == b.1 && strLe a.2 b.2)

/-- Insertion step of the root sort. -/
def insertByKey (m : Model) : List Model → List Model
  | [] => [m]
  | x :: xs => if keyLe (modelKey m) (modelKey x) then m :: x :: xs else x :: insertByKey m xs

/-- Sort models by (meta name, table name), as `sorted(models, key=names)`. -/
def sortByKey : List Model → List Model
  | [] => []
  | x :: xs => insertByKey x (sortByKey xs)

/-- Deduplication of models (Python's `set(models)`), keeping first occurrences. -/
def dedupModels : List Model → List Model
  | [] => []
  | x :: xs => x :: (dedupModels xs).filter (fun y => decide (y ≠ x))

/-- Whether an operation is a table removal (`migrator.remove_model`). -/
def Op.isRemove : Op → Bool
  | .removeModel _ => true
  | _ => false

/-- Invariant of one visitor step of the `sort_models` depth-first search:
the seen set grows, the ordering grows by a duplicate-free block of previously
unseen models that end up seen, and every seen model was seen before or is in
the ordering. -/
def DfsSpec (g : Model → DfsSt → DfsSt) : Prop :=
  ∀ m st,
    (∀ x ∈ st.seen, x ∈ (g m st).seen)
    ∧ (∃ new, (g m st).ord = st.ord ++ new ∧ new.Nodup
        ∧ (∀ x ∈ new, x ∉ st.seen) ∧ (∀ x ∈ new, x ∈ (g m st).seen))
    ∧ (∀ x ∈ (g m st).seen, x ∈ st.seen ∨ x ∈ (g m st).ord)

/-- peewee's `sort_models`: depth-first search from the sorted roots; the
ordering lists referenced models before the models referencing them. -/
def sortModels (ms : List Model) : List Model :=
  (dfsListAux (fun r s => dfsOne ms (ms.length + 1) r s) (sortByKey (dedupModels ms))
    { seen := [], ord := [] }).ord

/-- Lookup in a table-name-keyed model map. -/
def lookupMap (d : List (String × Model)) (k : String) : Option Model :=
  (d.find? (fun p => p.1 = k)).map Prod.snd

/-- Python dict insertion for the model maps of `diff_many`. -/
def insertMap (d : List (String × Model)) (k : String) (m : Model) : List (String × Model) :=
  if d.any (fun p => p.1 = k) then d.map (fun p => if p.1 = k then (k, m) else p)
  else d ++ [(k, m)]

/-- The `table_name -> model` dict `diff_many` builds from a sorted model list. -/
def buildMap (ms : List Model) : List (String × Model) :=
  ms.foldl (fun d m => insertMap d m.tableName m) []

/-- The per-common-table section of `diff_many`: diff each target-map entry
against the source-map entry of the same table name, skipping absent names. -/
def diffCommon (sourceMap : List (String × Model)) :
    List (String × Model) → Except String (List Op)
  | [] => Except.ok []
  | (name, m) :: rest =>
    match lookupMap sourceMap name with
    | none => diffCommon sourceMap rest
    | some s =>
      match diffModel m s with
      | .error e => Except.error e
      | .ok ops =>
        match diffCommon sourceMap rest with
        | .error e => Except.error e
        | .ok more => Except.ok (ops ++ more)

/-- `diff_many` from auto.py: sort both snapshots (reversing both in reverse
mode), diff the common tables, then create the tables only in the target and
remove the tables only in the source, each section in its map's insertion
order. -/
def diffMany (active source : List Model) (reverse : Bool) : Except String (List Op) :=
  let sactive := if reverse then (sortModels active).reverse else sortModels active
  let ssource := if reverse then (sortModels source).reverse else sortModels source
  let activeMap := buildMap sactive
  let sourceMap := buildMap ssource
  match diffCommon sourceMap activeMap with
  | .error e => Except.error e
  | .ok changes =>
    let creates := (activeMap.filter (fun p => (lookupMap sourceMap p.1).isNone)).map
      (fun p => Op.createModel p.2)
    let removes := (sourceMap.filter (fun p => (lookupMap activeMap p.1).isNone)).map
      (fun p => Op.removeModel p.1)
    Except.ok (changes ++ creates ++ removes)

/-! Embedding of the schema mutator (`peewee_migrate/migrator.py`) and the
migration runner (`peewee_migrate/router.py`). -/

/-- The database dialects `SchemaMigrator.from_database` dispatches on. -/
inductive Dialect where
  | postgres
  | sqlite
  | mysql
deriving DecidableEq, Repr

/-- A lowered operation appended to the Migrator's pending queue `__ops__`:
either a playhouse `Operation` or a queued callable, identified by the method
and arguments the Migrator passes to its `SchemaMigrator`. -/
inductive MOp where
  | createTable (model : Model)
  | dropTable (tableName : String) (cascade : Bool)
  | rawSQL (sql : String) (params : List PValue)
  | runCallback (tag : String)
  | addColumn (table : String) (columnName : String) (field : Field)
  | dropColumn (table : String) (columnName : String) (cascade : Bool)
  | renameColumn (table : String) (oldName : String) (newName : String)
  | renameTable (oldName : String) (newName : String)
  | changeColumn (table : String) (columnName : String) (field : Field)
  | addIndex (table : String) (columns : List String) (unique : Bool)
  | dropIndex (table : String) (indexName : String)
  | addNotNull (table : String) (columnName : String)
  | dropNotNull (table : String) (columnName : String)
  | applyDefault (table : String) (name : String) (field : Field)
  | addForeignKeyConstraint (table : String) (columnName : String) (relTable : String)
      (relColumn : String) (onDelete : String) (onUpdate : String)
  | dropForeignKeyConstraint (table : String) (columnName : String)
  | addConstraint (table : String) (name : String) (constraint : String)
  | dropConstraint (table : String) (name : String)
deriving DecidableEq, Repr

/-- `drop_table` lowering: the base `SchemaMigrator` forwards the cascade flag
to `model.drop_table`, the `SqliteMigrator` override always passes
`cascade=False`. -/
def dropTableLowered (d : Dialect) (tableName : String) (cascade : Bool) : MOp :=
  match d with
  | .sqlite => MOp.dropTable tableName false
  | _ => MOp.dropTable tableName cascade

/-- The Migrator's registry (`ORM`): models keyed by class name
(`__models__`) and by table name (`__tables__`). -/
structure ORM where
  models : List (String × Model)
  tables : List (String × Model)
deriving DecidableEq, Repr

/-- `ORM.add`: store the model under its class name and its table name. -/
def ormAdd (o : ORM) (m : Model) : ORM :=
  { models := insertMap o.models m.className m,
    tables := insertMap o.tables m.tableName m }

/-- `ORM.remove`: delete the model's entries from both maps. -/
def ormRemove (o : ORM) (m : Model) : ORM :=
  { models := o.models.filter (fun p => p.1 ≠ m.className),
    tables := o.tables.filter (fun p => p.1 ≠ m.tableName) }

/-- `Migrator.__get_model__` for a string argument: class-name lookup first,
then table-name lookup, else a not-found error. -/
def getModel (o : ORM) (name : String) : Except String Model :=
  match lookupMap o.models name with
  | some m => Except.ok m
  | none =>
    match lookupMap o.tables name with
    | some m => Except.ok m
    | none => Except.error ("Model " ++ name ++ " not found")

/-- The in-memory state of a `Migrator`: its dialect-specific schema migrator,
its registry and its pending operation queue. -/
structure MigratorSt where
  dialect : Dialect
  orm : ORM
  ops : List MOp
deriving DecidableEq, Repr

/-- peewee `Field.bind` as triggered by `Metadata.add_field`: the field takes
the given attribute name; an absent column name defaults to the name, with the
`_id` suffix for foreign keys. -/
def bindField (name : String) (f : Field) : Field :=
  let col :=
    if f.columnName ≠ "" then f.columnName
    else if f.fclass.isFK then
      (if ("_id".data.reverse.isPrefixOf name.data.reverse) then name else name ++ "_id")
    else name
  { f with name := name, columnName := col }

/-- peewee `Metadata.add_field`: replace any field bound under the name, the
rebound field joining at the end of the sorted order. -/
def metaAddField (m : Model) (name : String) (field : Field) : Model :=
  { m with fields := m.fields.filter (fun f => f.name ≠ name) ++ [field] }

/-- Python `list.remove` with `suppress(ValueError)`: drop the first matching
element, no-op when absent (used on `meta.indexes`). -/
def removeFirstIndex : List (List String × Bool) → (List String × Bool) →
    List (List String × Bool)
  | [], _ => []
  | x :: xs, t => if x = t then xs else x :: removeFirstIndex xs t

/-- playhouse `make_index_name` (modulo its 64-character truncation). -/
def makeIndexName (table : String) (cols : List String) : String :=
  table ++ "_" ++ String.intercalate "_" cols

/-- The body of `Migrator.change_fields` for a single keyword argument: track
the registered field, rebind the new field, drop a foreign-key constraint when
the old field was one, rename the column when the physical name changed; for a
foreign-key replacement re-add the constraint and stop, otherwise change the
column and maintain the single-column unique index when the uniqueness flag
flipped. -/
def changeFieldsOne (m : Model) (name : String) (field0 : Field) : Model × List MOp :=
  let table := m.tableName
  let oldField := (m.fields.find? (fun f => f.name = name)).getD field0
  let oldColumnName := oldField.columnName
  let field := bindField name field0
  let m2 := metaAddField m name field
  let ops1 : List MOp :=
    if oldField.fclass.isFK then [MOp.dropForeignKeyConstraint table oldColumnName] else []
  let ops2 : List MOp :=
    if oldColumnName ≠ field.columnName then
      [MOp.renameColumn table oldColumnName field.columnName] else []
  match field.fclass with
  | .foreignKeyField rel od ou =>
      let relTable := if rel.selfRef then table else rel.relTable
      (m2, ops1 ++ ops2 ++
        [MOp.addForeignKeyConstraint table field.columnName relTable rel.relFieldName
          (od.getD "RESTRICT") (ou.getD "RESTRICT")])
  | _ =>
    let ops3 := ops1 ++ ops2 ++ [MOp.changeColumn table field.columnName field]
    if field.unique = oldField.unique then (m2, ops3)
    else if field.unique then
      ({ m2 with indexes := m2.indexes ++ [([field.columnName], field.unique)] },
       ops3 ++ [MOp.addIndex table [field.columnName] field.unique])
    else
      ({ m2 with indexes := removeFirstIndex m2.indexes ([field.columnName], true) },
       ops3 ++ [MOp.dropIndex table field.columnName])

/-- Replace the field bound under `name` by `f` applied to it. -/
def updateFieldNamed (m : Model) (name : String) (f : Field → Field) : Model :=
  { m with fields := m.fields.map (fun fl => if fl.name = name then f fl else fl) }

/-- The migration actions a migration body performs against the Migrator, one
constructor per public mutation method used by generated migrations. -/
inductive MigAction where
  | createModel (m : Model)
  | removeModel (name : String) (cascade : Bool)
  | addFields (name : String) (fields : List (String × Field))
  | changeFields (name : String) (fields : List (String × Field))
  | removeFields (name : String) (names : List String) (cascade : Bool)
  | renameTable (name : String) (newName : String)
  | addIndex (name : String) (columns : List String) (unique : Bool)
  | dropIndex (name : String) (columns : List String)
  | addNotNull (name : String) (names : List String)
  | dropNotNull (name : String) (names : List String)
  | rawSQL (sql : String) (params : List PValue)
  | runCallback (tag : String)
deriving DecidableEq, Repr

/-- `Migrator.remove_model`: resolve, unregister and enqueue the lowered
table drop. -/
def removeModelAct (st : MigratorSt) (name : String) (cascade : Bool) :
    Except String MigratorSt :=
  match getModel st.orm name with
  | .error e => Except.error e
  | .ok m =>
      Except.ok { st with orm := ormRemove st.orm m,
                          ops := st.ops ++ [dropTableLowered st.dialect m.tableName cascade] }

/-- `Migrator.add_fields`: bind each field into the model and enqueue one add
column per field. -/
def addFieldsAct (st : MigratorSt) (name : String) (fields : List (String × Field)) :
    Except String MigratorSt :=
  match getModel st.orm name with
  | .error e => Except.error e
  | .ok m =>
      let r := fields.foldl
        (fun (acc : Model × List MOp) nf =>
          let bf := bindField nf.1 nf.2
          (metaAddField acc.1 nf.1 bf, acc.2 ++ [MOp.addColumn m.tableName bf.columnName bf]))
        (m, [])
      Except.ok { st with orm := ormAdd st.orm r.1, ops := st.ops ++ r.2 }

/-- `Migrator.change_fields`: fold `changeFieldsOne` over the keyword
arguments. -/
def changeFieldsAct (st : MigratorSt) (name : String) (fields : List (String × Field)) :
    Except String MigratorSt :=
  match getModel st.orm name with
  | .error e => Except.error e
  | .ok m =>
      let r := fields.foldl
        (fun (acc : Model × List MOp) nf =>
          let one := changeFieldsOne acc.1 nf.1 nf.2
          (one.1, acc.2 ++ one.2))
        (m, [])
      Except.ok { st with orm := ormAdd st.orm r.1, ops := st.ops ++ r.2 }

/-- `Migrator.remove_fields`: for each matching field, unbind it, drop its
single-column unique index when flagged unique, and drop the column. -/
def removeFieldsAct (st : MigratorSt) (name : String) (names : List String) (cascade : Bool) :
    Except String MigratorSt :=
  match getModel st.orm name with
  | .error e => Except.error e
  | .ok m =>
      let picked := m.fields.filter (fun f => names.contains f.name)
      let r := picked.foldl
        (fun (acc : Model × List MOp) f =>
          let m2 := { acc.1 with fields := acc.1.fields.filter (fun g => g.name ≠ f.name) }
          let dropIdx : List MOp :=
            if f.unique then
              [MOp.dropIndex m.tableName (makeIndexName m.tableName [f.columnName])]
            else []
          (m2, acc.2 ++ dropIdx ++ [MOp.dropColumn m.tableName f.columnName cascade]))
        (m, [])
      Except.ok { st with orm := ormAdd st.orm r.1, ops := st.ops ++ r.2 }

/-- `Migrator.rename_table`: re-key the registry and enqueue the rename. -/
def renameTableAct (st : MigratorSt) (name : String) (newName : String) :
    Except String MigratorSt :=
  match getModel st.orm name with
  | .error e => Except.error e
  | .ok m =>
      let oldName := m.tableName
      let m2 := { m with tableName := newName }
      Except.ok { st with orm := ormAdd (ormRemove st.orm m) m2,
                          ops := st.ops ++ [MOp.renameTable oldName newName] }

/-- `Migrator.add_index`: register the index tuple, update single-column field
flags, and enqueue the index creation on the physical column names.  A column
name missing from the model is an attribute error in the source. -/
def addIndexAct (st : MigratorSt) (name : String) (columns : List String) (unique : Bool) :
    Except String MigratorSt :=
  match getModel st.orm name with
  | .error e => Except.error e
  | .ok m =>
      let m2 := { m with indexes := m.indexes ++ [(columns, unique)] }
      let step := columns.foldl
        (fun (acc : Except String (Model × List String)) col =>
          match acc with
          | .error e => Except.error e
          | .ok (mm, cols) =>
            match mm.fields.find? (fun f => f.name = col) with
            | none => Except.error ("field " ++ col ++ " not found")
            | some f =>
              let mm2 :=
                if columns.length = 1 then
                  updateFieldNamed mm col (fun fl => { fl with unique := unique, index := !unique })
                else mm
              Except.ok (mm2, cols ++ [f.columnName]))
        (Except.ok (m2, []))
      match step with
      | .error e => Except.error e
      | .ok (m3, cols) =>
          Except.ok { st with orm := ormAdd st.orm m3,
                              ops := st.ops ++ [MOp.addIndex m.tableName cols unique] }

/-- `Migrator.drop_index`: clear single-column field flags, deregister the
index tuple and enqueue the drop under the generated index name; unknown
columns are skipped. -/
def dropIndexAct (st : MigratorSt) (name : String) (columns : List String) :
    Except String MigratorSt :=
  match getModel st.orm name with
  | .error e => Except.error e
  | .ok m =>
      let r := columns.foldl
        (fun (acc : Model × List String) col =>
          match acc.1.fields.find? (fun f => f.name = col) with
          | none => acc
          | some f =>
            let mm :=
              if columns.length = 1 then
                updateFieldNamed acc.1 col (fun fl => { fl with unique := false, index := false })
              else acc.1
            (mm, acc.2 ++ [f.columnName]))
        (m, [])
      let m2 := { r.1 with indexes := r.1.indexes.filter (fun ix => columns ≠ ix.1) }
      Except.ok { st with orm := ormAdd st.orm m2,
                          ops := st.ops ++ [MOp.dropIndex m.tableName (makeIndexName m.tableName r.2)] }

/-- `Migrator.add_not_null` / `drop_not_null`: flip the null flag of each named
field and enqueue the statement; unknown names are key errors. -/
def notNullAct (st : MigratorSt) (name : String) (names : List String) (null : Bool) :
    Except String MigratorSt :=
  match getModel st.orm name with
  | .error e => Except.error e
  | .ok m =>
      let r := names.foldl
        (fun (acc : Except String (Model × List MOp)) fname =>
          match acc with
          | .error e => Except.error e
          | .ok (mm, ops) =>
            match mm.fields.find? (fun f => f.name = fname) with
            | none => Except.error ("field " ++ fname ++ " not found")
            | some f =>
              let mm2 := updateFieldNamed mm fname (fun fl => { fl with null := null })
              let op := if null then MOp.dropNotNull m.tableName f.columnName
                        else MOp.addNotNull m.tableName f.columnName
              Except.ok (mm2, ops ++ [op]))
        (Except.ok (m, []))
      match r with
      | .error e => Except.error e
      | .ok (m2, ops) => Except.ok { st with orm := ormAdd st.orm m2, ops := st.ops ++ ops }

/-- Dispatch one migration action against the Migrator, mirroring the
corresponding `Migrator` method: mutate the registry and append lowered
operations; lookup failures surface as errors. -/
def applyAction (a : MigAction) (st : MigratorSt) : Except String MigratorSt :=
  match a with
  | .createModel m =>
      Except.ok { st with orm := ormAdd st.orm m, ops := st.ops ++ [MOp.createTable m] }
  | .removeModel name cascade => removeModelAct st name cascade
  | .addFields name fields => addFieldsAct st name fields
  | .changeFields name fields => changeFieldsAct st name fields
  | .removeFields name names cascade => removeFieldsAct st name names cascade
  | .renameTable name newName => renameTableAct st name newName
  | .addIndex name columns unique => addIndexAct st name columns unique
  | .dropIndex name columns => dropIndexAct st name columns
  | .addNotNull name names => notNullAct st name names false
  | .dropNotNull name names => notNullAct st name names true
  | .rawSQL sql params => Except.ok { st with ops := st.ops ++ [MOp.rawSQL sql params] }
  | .runCallback tag => Except.ok { st with ops := st.ops ++ [MOp.runCallback tag] }

/-- Run a migration body: apply its actions in order; an exception leaves the
Migrator in its partially mutated state and is reported. -/
def applyActions : List MigAction → MigratorSt → MigratorSt × Option String
  | [], st => (st, none)
  | a :: rest, st =>
    match applyAction a st with
    | .error e => (st, some e)
    | .ok st2 => applyActions rest st2

/-- A migration record: an upgrade body and a downgrade body. -/
structure Migration where
  upgrade : List MigAction
  downgrade : List MigAction
deriving DecidableEq, Repr

/-- Execute the queued operations in order against the database trace; the
first failing operation stops execution. -/
def runOps (exec : MOp → Except String Unit) :
    List MOp → List MOp → List MOp × Option String
  | [], db => (db, none)
  | op :: rest, db =>
    match exec op with
    | .error e => (db, some e)
    | .ok _ => runOps exec rest (db ++ [op])

/-- `Migrator.__call__`: run every queued operation, then reset the queue; an
operation failure propagates before the reset, leaving the queue intact. -/
def migratorCall (exec : MOp → Except String Unit) (mig : MigratorSt) (db : List MOp) :
    MigratorSt × List MOp × Option String :=
  let r := runOps exec mig.ops db
  match r.2 with
  | none => ({ mig with ops := [] }, r.1, none)
  | some e => (mig, r.1, some e)

/-- A history-table statement: append or delete an entry by migration name. -/
inductive HistOp where
  | create (name : String)
  | delete (name : String)
deriving DecidableEq, Repr

/-- Combined state the runner acts on: the Migrator, the history table rows
(in application order) and the trace of executed database operations. -/
structure SysState where
  migrator : MigratorSt
  history : List String
  db : List MOp
deriving DecidableEq, Repr

/-- Result of one runner call: the post state, the returned name or re-raised
error, the logged failure tag, and the real (non-fake) migrations executed. -/
structure RunResult where
  state : SysState
  result : Except String String
  failTag : Option String
  realRuns : List (String × Bool)
deriving Repr

/-- The tag `run_one` logs on failure. -/
def failTagOf (downgrade : Bool) : String :=
  if downgrade then "Rollback" else "Migration"

/-- `BaseRouter.run_one`: read the migration; in fake mode run the upgrade body
with statement execution suppressed, record history only under `force`, and
reset the queue; in real mode run the body inside a transaction, flush the
queue, and update the history table — any exception rolls the transaction
back (db and history restored), is tagged, and is re-raised. -/
def runOne (reader : String → Except String Migration)
    (exec : MOp → Except String Unit) (histExec : HistOp → Except String Unit)
    (name : String) (st : SysState) (fake downgrade force : Bool) : RunResult :=
  match reader name with
  | .error e =>
      { state := st, result := Except.error e,
        failTag := some (failTagOf downgrade), realRuns := [] }
  | .ok mig =>
    if fake then
      match applyActions mig.upgrade st.migrator with
      | (m2, some e) =>
          { state := { st with migrator := m2 }, result := Except.error e,
            failTag := some (failTagOf downgrade), realRuns := [] }
      | (m2, none) =>
        match (if force then histExec (HistOp.create name) else Except.ok ()) with
        | .error e =>
            { state := { st with migrator := m2 }, result := Except.error e,
              failTag := some (failTagOf downgrade), realRuns := [] }
        | .ok _ =>
            { state := { migrator := { m2 with ops := [] },
                         history := if force then st.history ++ [name] else st.history,
                         db := st.db },
              result := Except.ok name, failTag := none, realRuns := [] }
    else
      match applyActions (if downgrade then mig.downgrade else mig.upgrade) st.migrator with
      | (m2, some e) =>
          { state := { st with migrator := m2 }, result := Except.error e,
            failTag := some (failTagOf downgrade), realRuns := [] }
      | (m2, none) =>
        let fl := migratorCall exec m2 st.db
        match fl.2.2 with
        | some e =>
            { state := { migrator := fl.1, history := st.history, db := st.db },
              result := Except.error e,
              failTag := some (failTagOf downgrade), realRuns := [] }
        | none =>
          match histExec (if downgrade then HistOp.delete name else HistOp.create name) with
          | .error e =>
              { state := { migrator := fl.1, history := st.history, db := st.db },
                result := Except.error e,
                failTag := some (failTagOf downgrade), realRuns := [] }
          | .ok _ =>
              { state := { migrator := fl.1,
                           history := if downgrade then st.history.filter (fun n => n ≠ name)
                                      else st.history ++ [name],
                           db := fl.2.1 },
                result := Except.ok name, failTag := none, realRuns := [(name, downgrade)] }

/-- `BaseRouter.migrator`: replay every applied migration in fake mode against
a fresh Migrator; each replay clears the queue, and a replay failure
propagates. -/
def buildMigrator (reader : String → Except String Migration) (dialect : Dialect)
    (done : List String) : Except String MigratorSt :=
  done.foldlM
    (fun mig mname =>
      match reader mname with
      | .error e => Except.error e
      | .ok m =>
        match applyActions m.upgrade mig with
        | (_, some e) => Except.error e
        | (m2, none) => Except.ok { m2 with ops := [] })
    { dialect := dialect, orm := { models := [], tables := [] }, ops := [] }

/-- `BaseRouter.rollback`: refuse an empty history, otherwise rebuild the
Migrator from the full history and run the most recent migration's downgrade
for real. -/
def rollbackRouter (reader : String → Except String Migration)
    (exec : MOp → Except String Unit) (histExec : HistOp → Except String Unit)
    (dialect : Dialect) (st : SysState) : RunResult :=
  if st.history = [] then
    { state := st, result := Except.error "There is nothing to rollback",
      failTag := none, realRuns := [] }
  else
    let name := st.history.getLast?.getD ""
    match buildMigrator reader dialect st.history with
    | .error e =>
        { state := st, result := Except.error e,
          failTag := some (failTagOf false), realRuns := [] }
    | .ok mig0 =>
        runOne reader exec histExec name
          { migrator := mig0, history := st.history, db := st.db } false true false

/-! Concrete inputs used by the witnesses and counterexamples below. -/

/-- Auto primary key field shared by the example models. -/
def fldId : Field :=
  { name := "id", columnName := "id", fclass := .autoField, null := false,
    primaryKey := true, index := false, unique := false, default := none }

/-- Char field `name`. -/
def fldName : Field :=
  { name := "name", columnName := "name", fclass := .charField 255, null := false,
    primaryKey := false, index := false, unique := false, default := none }

/-- Integer field `age`. -/
def fldAge : Field :=
  { name := "age", columnName := "age", fclass := .integerField, null := false,
    primaryKey := false, index := false, unique := false, default := none }

/-- Char field `email`. -/
def fldEmail : Field :=
  { name := "email", columnName := "email", fclass := .charField 255, null := false,
    primaryKey := false, index := false, unique := false, default := none }

/-- Source snapshot table `person(id, name, age)` of the add+drop scenario. -/
def personSource : Model :=
  { metaName := "person", className := "Person", tableName := "person",
    fields := [fldId, fldName, fldAge], indexes := [] }

/-- Target snapshot table `person(id, name, email)` of the add+drop scenario. -/
def personTarget : Model :=
  { metaName := "person", className := "Person", tableName := "person",
    fields := [fldId, fldName, fldEmail], indexes := [] }

/-- A standalone referenced table. -/
def modelAuthor : Model :=
  { metaName := "author", className := "Author", tableName := "author",
    fields := [fldId, fldName], indexes := [] }

/-- Foreign key from `book` to `author`. -/
def fldBookAuthor : Field :=
  { name := "author", columnName := "author_id",
    fclass := .foreignKeyField { relTable := "author", relFieldName := "id", selfRef := false }
      none none,
    null := false, primaryKey := false, index := true, unique := false, default := none }

/-- A table whose foreign key references `author`; it also carries a composite
unique index and a unique field, exercising the snapshot breadth of the no-op
diff claim. -/
def modelBook : Model :=
  { metaName := "book", className := "Book", tableName := "book",
    fields := [fldId, fldName, fldEmail, fldBookAuthor],
    indexes := [(["name", "email"], true)] }

/-- The snapshot with a foreign key and a composite index used as witness. -/
def snapshotW : List Model := [modelAuthor, modelBook]

/-- Foreign-key field with the CASCADE delete policy (`test_diff_fk_on_delete`). -/
def fldFkCascade : Field :=
  { name := "test", columnName := "test_id",
    fclass := .foreignKeyField { relTable := "test", relFieldName := "id", selfRef := false }
      (some "CASCADE") none,
    null := true, primaryKey := false, index := true, unique := false, default := none }

/-- The same field with the SET NULL delete policy. -/
def fldFkSetNull : Field :=
  { fldFkCascade with
    fclass := .foreignKeyField { relTable := "test", relFieldName := "id", selfRef := false }
      (some "SET NULL") none }

/-- An execution model that fails every statement. -/
def execBoom : MOp → Except String Unit := fun _ => Except.error "boom"

/-- An execution model that accepts every statement. -/
def execOk : MOp → Except String Unit := fun _ => Except.ok ()

/-- A history store model that accepts every statement. -/
def histOk : HistOp → Except String Unit := fun _ => Except.ok ()

/-- An empty Migrator over postgres. -/
def mig0 : MigratorSt :=
  { dialect := .postgres, orm := { models := [], tables := [] }, ops := [] }

/-- A Migrator whose queue holds one raw statement. -/
def migQueued : MigratorSt := { mig0 with ops := [MOp.rawSQL "select 1" []] }

/-- The example migration: create `author` on upgrade, drop it on downgrade. -/
def migAuthor : Migration :=
  { upgrade := [MigAction.createModel modelAuthor],
    downgrade := [MigAction.removeModel "author" true] }

/-- A single-entry migration source resolving `001_author`. -/
def readerW : String → Except String Migration :=
  fun n => if n = "001_author" then Except.ok migAuthor else Except.error "unknown migration"

/-- System state with `001_author` applied. -/
def sysW : SysState := { migrator := mig0, history := ["001_author"], db := [] }

/-- System state with an empty history. -/
def sysEmpty : SysState := { migrator := mig0, history := [], db := [] }

/-- Registered foreign-key field (not unique) of the change-fields
counterexample. -/
def fldC9Old : Field :=
  { name := "owner", columnName := "owner_id",
    fclass := .foreignKeyField { relTable := "author", relFieldName := "id", selfRef := false }
      none none,
    null := false, primaryKey := false, index := true, unique := false, default := none }

/-- Replacement foreign-key field whose uniqueness flag is flipped on. -/
def fldC9New : Field :=
  { fldC9Old with unique := true, index := false }

/-- Model holding the registered foreign-key field. -/
def modelC9 : Model :=
  { metaName := "pet", className := "Pet", tableName := "pet",
    fields := [fldId, fldC9Old], indexes := [] }

/-- Replacement char field with the uniqueness flag turned on. -/
def fldEmailUnique : Field := { fldEmail with unique := true }

/-- Model with a plain (non-foreign-key) email field, for the change-fields
witness. -/
def modelC9b : Model :=
  { metaName := "member", className := "Member", tableName := "member",
    fields := [fldId, fldEmail], indexes := [] }

end PM

namespace PM

theorem filter_not_mem_self {α : Type} [DecidableEq α] (l : List α) :
    l.filter (fun x => decide (x ∉ l)) = [] := by
  refine List.filter_eq_nil_iff.mpr ?_
  intro a ha
  simp [ha]

theorem filter_not_contains_self (l : List String) :
    l.filter (fun n => !(l.contains n)) = [] := by
  refine List.filter_eq_nil_iff.mpr ?_
  intro a ha
  simp [ha]

theorem compareFields_self (f : Field) : compareFields f f = [] := by
  unfold compareFields
  simp [filter_not_mem_self]

theorem find_self_of_nodup (l : List Field) (f : Field)
    (h : (l.map Field.name).Nodup) (hf : f ∈ l) :
    l.find? (fun sf => sf.name = f.name) = some f := by
  induction l with
  | nil => cases hf
  | cons g t ih =>
    rcases List.mem_cons.1 hf with rfl | hf
    · exact List.find?_cons_of_pos _ (by simp)
    · have hgname : g.name ∉ t.map Field.name := (List.nodup_cons.1 h).1
      have hft : f.name ∈ t.map Field.name := List.mem_map_of_mem _ hf
      have hne : ¬(g.name = f.name) := fun he => hgname (he ▸ hft)
      rw [List.find?_cons_of_neg _ (by simpa using hne)]
      exact ih (List.nodup_cons.1 h).2 hf

theorem changeOpsFor_self (m : Model) (f : Field)
    (h : (m.fields.map Field.name).Nodup) (hf : f ∈ m.fields) :
    changeOpsFor m m f = [] := by
  unfold changeOpsFor
  rw [find_self_of_nodup m.fields f h hf]
  simp [compareFields_self]

theorem diffModelFields_self (m : Model) (h : (m.fields.map Field.name).Nodup) :
    diffModelFields m m = [] := by
  unfold diffModelFields
  have h1 : (m.fields.map Field.name).filter
      (fun n => !((m.fields.map Field.name).contains n)) = [] :=
    filter_not_contains_self _
  have h2 : m.fields.filter (fun f => (m.fields.map Field.name).contains f.name) = m.fields :=
    List.filter_eq_self.mpr (fun f hf => by simp; exact ⟨f, hf, rfl⟩)
  simp only [h1, h2, List.isEmpty_nil, if_pos]
  have h3 : ∀ ops ∈ m.fields.map (changeOpsFor m m), ops = [] := by
    intro ops hops
    rcases List.mem_map.1 hops with ⟨f, hf, rfl⟩
    exact changeOpsFor_self m f h hf
  simp [List.flatten_eq_nil_iff.mpr h3]

theorem diffModelIndexes_self (m : Model) : diffModelIndexes m m = [] := by
  unfold diffModelIndexes
  have h1 : (((fieldsToIndex m).map MIndex.name).filter
      (fun n => !(((fieldsToIndex m).map MIndex.name).contains n))) = [] :=
    filter_not_contains_self _
  simp only [h1, dedupStrings, sortStrings, List.filterMap_nil, List.nil_append]
  rw [List.flatten_eq_nil_iff]
  intro ops hops
  rcases List.mem_map.1 hops with ⟨n, _, rfl⟩
  cases (fieldsToIndex m).find? (fun i => i.name = n) <;> simp

theorem diffModel_self (m : Model) (h : (m.fields.map Field.name).Nodup) :
    diffModel m m = Except.ok [] := by
  unfold diffModel
  simp [diffModelFields_self m h, diffModelIndexes_self m]

theorem dfsListAux_pres (P : DfsSt → Prop) (g : Model → DfsSt → DfsSt)
    (hone : ∀ m st, P st → P (g m st)) :
    ∀ l st, P st → P (dfsListAux g l st) := by
  intro l
  induction l with
  | nil => intro st h; simpa [dfsListAux] using h
  | cons r rs ih => intro st h; rw [dfsListAux]; exact ih _ (hone _ _ h)

theorem dfsOne_ord_subset (ms : List Model) :
    ∀ fuel m st, (∀ x ∈ st.ord, x ∈ ms) → ∀ x ∈ (dfsOne ms fuel m st).ord, x ∈ ms := by
  intro fuel
  induction fuel with
  | zero => intro m st h; simpa [dfsOne] using h
  | succ n ih =>
    intro m st h
    rw [dfsOne]
    split
    · rename_i hg
      intro x hx
      simp only at hx
      rcases List.mem_append.1 hx with hx | hx
      · exact dfsListAux_pres (fun s => ∀ x ∈ s.ord, x ∈ ms) _
          (fun m' st' h' => ih m' st' h') _ _ (by simpa using h) x hx
      · rw [List.mem_singleton.1 hx]; exact hg.1
    · exact h

theorem sortModels_subset (ms : List Model) : ∀ x ∈ sortModels ms, x ∈ ms := by
  unfold sortModels
  exact dfsListAux_pres (fun s => ∀ x ∈ s.ord, x ∈ ms) _
    (fun m st h => dfsOne_ord_subset ms _ m st h) _ _ (by simp)

theorem insertMap_fst_keys (d : List (String × Model)) (k : String) (m : Model) :
    (insertMap d k m).map Prod.fst =
      if d.any (fun p => p.1 = k) then d.map Prod.fst else d.map Prod.fst ++ [k] := by
  unfold insertMap
  split
  · simp only [if_pos ‹_›, List.map_map]
    refine List.map_congr_left ?_
    intro p _
    by_cases hp : p.1 = k <;> simp [hp]
  · simp [if_neg ‹_›]

theorem buildMap_keys_nodup (ms : List Model) : ((buildMap ms).map Prod.fst).Nodup := by
  unfold buildMap
  suffices h : ∀ (l : List Model) (acc : List (String × Model)), (acc.map Prod.fst).Nodup →
      ((l.foldl (fun d m => insertMap d m.tableName m) acc).map Prod.fst).Nodup by
    exact h ms [] (by simp)
  intro l
  induction l with
  | nil => intro acc h; simpa using h
  | cons a t ih =>
    intro acc h
    rw [List.foldl_cons]
    apply ih
    rw [insertMap_fst_keys]
    split
    · exact h
    · rename_i hany
      have hnotin : a.tableName ∉ acc.map Prod.fst := by
        intro hmem
        apply hany
        rcases List.mem_map.1 hmem with ⟨p, hp, hpk⟩
        exact List.any_eq_true.2 ⟨p, hp, by simp [hpk]⟩
      simp [List.nodup_append, h, hnotin, List.disjoint_singleton]

theorem insertMap_inv (P : String × Model → Prop) (acc : List (String × Model))
    (k : String) (m : Model) (hm : P (k, m)) (h : ∀ p ∈ acc, P p) :
    ∀ p ∈ insertMap acc k m, P p := by
  unfold insertMap
  split
  · intro p hp
    rcases List.mem_map.1 hp with ⟨q, hq, rfl⟩
    by_cases hqk : q.1 = k
    · simpa [hqk] using hm
    · simpa [hqk] using h q hq
  · intro p hp
    rcases List.mem_append.1 hp with hp | hp
    · exact h p hp
    · rw [List.mem_singleton.1 hp]; exact hm

theorem buildMap_inv (ms : List Model) :
    ∀ p ∈ buildMap ms, p.2 ∈ ms ∧ p.2.tableName = p.1 := by
  unfold buildMap
  suffices h : ∀ (l : List Model), (∀ x ∈ l, x ∈ ms) →
      ∀ (acc : List (String × Model)), (∀ p ∈ acc, p.2 ∈ ms ∧ p.2.tableName = p.1) →
      ∀ p ∈ l.foldl (fun d m => insertMap d m.tableName m) acc, p.2 ∈ ms ∧ p.2.tableName = p.1 by
    exact h ms (fun x hx => hx) [] (by simp)
  intro l
  induction l with
  | nil => intro _ acc h; simpa using h
  | cons a t ih =>
    intro hl acc h
    rw [List.foldl_cons]
    exact ih (fun x hx => hl x (List.mem_cons_of_mem _ hx)) _
      (insertMap_inv _ _ _ _ ⟨hl a (List.mem_cons_self _ _), rfl⟩ h)

theorem lookupMap_of_mem (d : List (String × Model)) (hd : (d.map Prod.fst).Nodup)
    (p : String × Model) (hp : p ∈ d) : lookupMap d p.1 = some p.2 := by
  induction d with
  | nil => cases hp
  | cons q t ih =>
    rcases List.mem_cons.1 hp with rfl | hp
    · unfold lookupMap
      rw [List.find?_cons_of_pos _ (by simp)]
      rfl
    · have hqk : q.1 ∉ t.map Prod.fst := (List.nodup_cons.1 hd).1
      have hpk : p.1 ∈ t.map Prod.fst := List.mem_map_of_mem _ hp
      have hne : ¬(q.1 = p.1) := fun he => hqk (he ▸ hpk)
      show (List.find? (fun r => r.1 = p.1) (q :: t)).map Prod.snd = some p.2
      rw [List.find?_cons_of_neg _ (by simpa using hne)]
      exact ih (List.nodup_cons.1 hd).2 hp

theorem diffCommon_self (M : List (String × Model)) :
    ∀ l : List (String × Model),
      (∀ p ∈ l, lookupMap M p.1 = some p.2 ∧ diffModel p.2 p.2 = Except.ok []) →
      diffCommon M l = Except.ok [] := by
  intro l
  induction l with
  | nil => intro _; rfl
  | cons q t ih =>
    intro h
    obtain ⟨qk, qv⟩ := q
    obtain ⟨h1, h2⟩ := h (qk, qv) (List.mem_cons_self _ _)
    have ht := ih (fun p hp => h p (List.mem_cons_of_mem _ hp))
    simp only at h1 h2
    rw [diffCommon, h1]
    simp only [h2, ht]
    rfl

/-- Claim C1: diffing any schema snapshot against itself yields no operations:
`diff_many(A, A)` returns the empty list, for snapshots including foreign keys
and composite indexes (each model's field names being distinct, as peewee
guarantees). -/
theorem claim_c1_diff_self_empty (A : List Model)
    (h : ∀ m ∈ A, (m.fields.map Field.name).Nodup) :
    diffMany A A false = Except.ok [] := by
  unfold diffMany
  simp only [Bool.false_eq_true, if_false, if_neg]
  have hkeys := buildMap_keys_nodup (sortModels A)
  have hdc : diffCommon (buildMap (sortModels A)) (buildMap (sortModels A)) = Except.ok [] := by
    refine diffCommon_self _ _ (fun p hp => ⟨lookupMap_of_mem _ hkeys p hp, ?_⟩)
    exact diffModel_self _ (h _ (sortModels_subset A _ (buildMap_inv (sortModels A) p hp).1))
  have hcr : (buildMap (sortModels A)).filter
      (fun p => (lookupMap (buildMap (sortModels A)) p.1).isNone) = [] := by
    refine List.filter_eq_nil_iff.mpr ?_
    intro p hp
    rw [lookupMap_of_mem _ hkeys p hp]
    simp
  rw [hdc, hcr]
  simp

/-- Claim C1 witness: the no-op diff on a concrete snapshot with a foreign key,
a composite unique index and a unique-flagged field. -/
theorem claim_c1_witness :
    (∀ m ∈ snapshotW, (m.fields.map Field.name).Nodup) ∧
      diffMany snapshotW snapshotW false = Except.ok [] :=
  ⟨by decide, claim_c1_diff_self_empty snapshotW (by decide)⟩

/-- Claim C2: diffing target `person(name, email)` against source
`person(name, age)` produces exactly two operations, an add of `email`
followed by a drop of `age`. -/
theorem claim_c2_person_add_drop :
    diffModel personTarget personSource =
      Except.ok [Op.addFields "person" [fldEmail], Op.removeFields "person" ["age"]] := by
  rfl

/-- Claim C3 counterexample: with target empty and source `[author, book]`
where `book` carries a foreign key referencing `author`, `diff_many` emits the
drop of the referenced table `author` before the drop of the referencing table
`book` — not the claimed reverse topological order. -/
theorem claim_c3_counterexample :
    diffMany [] [modelAuthor, modelBook] false =
        Except.ok [Op.removeModel "author", Op.removeModel "book"] ∧
      fldBookAuthor ∈ modelBook.fields ∧
      fldBookAuthor.fclass =
        FieldClass.foreignKeyField
          { relTable := "author", relFieldName := "id", selfRef := false } none none := by
  exact ⟨rfl, by decide, rfl⟩

/-- Claim C4 counterexample: two foreign-key fields of the same class differing
only in their on-delete policy compare as equal — `compare_fields` reports an
empty difference, matching the repository's own `test_diff_fk_on_delete`. -/
theorem claim_c4_counterexample : compareFields fldFkCascade fldFkSetNull = [] := by
  rfl

/-- Claim C5 counterexample: when a queued operation raises during the flush,
`Migrator.__call__` propagates the error and the queue is not cleared. -/
theorem claim_c5_counterexample :
    (migratorCall execBoom migQueued []).2.2 = some "boom" ∧
      (migratorCall execBoom migQueued []).1.ops = [MOp.rawSQL "select 1" []] := by
  exact ⟨rfl, rfl⟩

/-- Claim C10: on the SQLite dialect, `remove_model` enqueues the table drop
with the cascade flag discarded: any requested cascade value lowers to a
no-cascade drop. -/
theorem claim_c10_sqlite_drop_discards_cascade (orm : ORM) (ops : List MOp)
    (name : String) (b : Bool) :
    removeModelAct { dialect := Dialect.sqlite, orm := orm, ops := ops } name b =
      match getModel orm name with
      | .error e => Except.error e
      | .ok m =>
          Except.ok { dialect := Dialect.sqlite, orm := ormRemove orm m,
                      ops := ops ++ [MOp.dropTable m.tableName false] } := by
  unfold removeModelAct dropTableLowered
  cases getModel orm name <;> rfl

theorem filter_keep_any (d : PDict) (k : String) (hk : keepChangeKey k = true) :
    (d.filter (fun kv => keepChangeKey kv.1)).any (fun p => p.1 = k)
      = d.any (fun p => p.1 = k) := by
  induction d with
  | nil => rfl
  | cons a t ih =>
    rw [List.filter_cons]
    by_cases hka : keepChangeKey a.1 = true
    · rw [if_pos hka]
      simp only [List.any_cons, ih]
    · rw [if_neg hka]
      have ha : (decide (a.1 = k)) = false := by
        by_cases h2 : a.1 = k
        · exact absurd (h2 ▸ hk) hka
        · simp [h2]
      simp only [List.any_cons, ih, ha, Bool.false_or]

theorem filter_map_upd (d : PDict) (k : String) (v : PValue) (hk : keepChangeKey k = true) :
    ((d.map (fun p => if p.1 = k then (k, v) else p)).filter (fun kv => keepChangeKey kv.1))
      = ((d.filter (fun kv => keepChangeKey kv.1)).map
          (fun p => if p.1 = k then (k, v) else p)) := by
  induction d with
  | nil => rfl
  | cons a t ih =>
    by_cases ha : a.1 = k
    · have hga : (if a.1 = k then (k, v) else a) = (k, v) := if_pos ha
      have hka : keepChangeKey a.1 = true := by rw [ha]; exact hk
      simp only [List.map_cons, hga, List.filter_cons]
      rw [if_pos (show keepChangeKey (k, v).1 = true from hk), if_pos hka,
        List.map_cons, hga, ih]
    · have hga : (if a.1 = k then (k, v) else a) = a := if_neg ha
      simp only [List.map_cons, hga, List.filter_cons]
      by_cases hka : keepChangeKey a.1 = true
      · rw [if_pos hka, if_pos hka, List.map_cons, hga, ih]
      · rw [if_neg hka, if_neg hka, ih]

theorem filter_map_upd_drop (d : PDict) (k : String) (v : PValue)
    (hk : keepChangeKey k = false) :
    ((d.map (fun p => if p.1 = k then (k, v) else p)).filter (fun kv => keepChangeKey kv.1))
      = d.filter (fun kv => keepChangeKey kv.1) := by
  induction d with
  | nil => rfl
  | cons a t ih =>
    by_cases ha : a.1 = k
    · have hga : (if a.1 = k then (k, v) else a) = (k, v) := if_pos ha
      have hka : ¬(keepChangeKey a.1 = true) := by rw [ha, hk]; exact Bool.false_ne_true
      have hkv : ¬(keepChangeKey (k, v).1 = true) := by
        show ¬(keepChangeKey k = true)
        rw [hk]; exact Bool.false_ne_true
      simp only [List.map_cons, hga, List.filter_cons]
      rw [if_neg hkv, if_neg hka, ih]
    · have hga : (if a.1 = k then (k, v) else a) = a := if_neg ha
      simp only [List.map_cons, hga, List.filter_cons]
      by_cases hka : keepChangeKey a.1 = true
      · rw [if_pos hka, if_pos hka, ih]
      · rw [if_neg hka, if_neg hka, ih]

theorem filter_dset_keep (d : PDict) (k : String) (v : PValue) (hk : keepChangeKey k = true) :
    (dset d k v).filter (fun kv => keepChangeKey kv.1)
      = dset (d.filter (fun kv => keepChangeKey kv.1)) k v := by
  unfold dset
  rw [filter_keep_any d k hk]
  split
  · exact filter_map_upd d k v hk
  · rw [List.filter_append]
    simp [hk]

theorem filter_dset_drop (d : PDict) (k : String) (v : PValue) (hk : keepChangeKey k = false) :
    (dset d k v).filter (fun kv => keepChangeKey kv.1)
      = d.filter (fun kv => keepChangeKey kv.1) := by
  unfold dset
  split
  · exact filter_map_upd_drop d k v hk
  · rw [List.filter_append]
    simp [hk]

theorem filter_dpop_comm (d : PDict) (k : String) :
    (dpop d k).filter (fun kv => keepChangeKey kv.1)
      = dpop (d.filter (fun kv => keepChangeKey kv.1)) k := by
  unfold dpop
  rw [List.filter_filter, List.filter_filter]
  exact List.filter_congr (fun a _ => Bool.and_comm _ _)

theorem dget_filter_keep (d : PDict) (k : String) (hk : keepChangeKey k = true) :
    dget (d.filter (fun kv => keepChangeKey kv.1)) k = dget d k := by
  unfold dget
  induction d with
  | nil => rfl
  | cons a t ih =>
    rw [List.filter_cons]
    by_cases hka : keepChangeKey a.1 = true
    · rw [if_pos hka]
      by_cases ha : a.1 = k
      · rw [List.find?_cons_of_pos _ (by simpa using ha),
          List.find?_cons_of_pos _ (by simpa using ha)]
      · rw [List.find?_cons_of_neg _ (by simpa using ha),
          List.find?_cons_of_neg _ (by simpa using ha)]
        exact ih
    · rw [if_neg hka]
      have ha : ¬(a.1 = k) := fun h2 => absurd (h2 ▸ hk) hka
      rw [List.find?_cons_of_neg _ (by simpa using ha)]
      exact ih

theorem dmerge_filter_drop (ps : PDict) (h : ∀ kv ∈ ps, keepChangeKey kv.1 = false) :
    ∀ d : PDict, (dmerge d ps).filter (fun kv => keepChangeKey kv.1)
      = d.filter (fun kv => keepChangeKey kv.1) := by
  induction ps with
  | nil => intro d; rfl
  | cons u us ih =>
    intro d
    show (dmerge (dset d u.1 u.2) us).filter (fun kv => keepChangeKey kv.1) = _
    rw [ih (fun kv hkv => h kv (List.mem_cons_of_mem _ hkv)) (dset d u.1 u.2),
      filter_dset_drop _ _ _ (h u (List.mem_cons_self _ _))]

theorem dpop3_filter (p : PDict) :
    dpop (dpop (dpop p "default") "on_delete") "on_update"
      = p.filter (fun kv => keepChangeKey kv.1) := by
  unfold dpop
  rw [List.filter_filter, List.filter_filter]
  refine List.filter_congr ?_
  intro a _
  by_cases h1 : a.1 = "default" <;> by_cases h2 : a.1 = "on_delete" <;>
    by_cases h3 : a.1 = "on_update" <;> simp [keepChangeKey, h1, h2, h3]

theorem filter_congr_ite_dset (c : Prop) [Decidable c] (k : String) (v : PValue)
    (hk : keepChangeKey k = true) (X Y : PDict)
    (h : X.filter (fun kv => keepChangeKey kv.1) = Y.filter (fun kv => keepChangeKey kv.1)) :
    (if c then dset X k v else X).filter (fun kv => keepChangeKey kv.1)
      = (if c then dset Y k v else Y).filter (fun kv => keepChangeKey kv.1) := by
  split
  · rw [filter_dset_keep _ _ _ hk, filter_dset_keep _ _ _ hk, h]
  · exact h

theorem filter_congr_model_stage (c : Prop) [Decidable c] (s1 s2 : PValue) (X Y : PDict)
    (h : X.filter (fun kv => keepChangeKey kv.1) = Y.filter (fun kv => keepChangeKey kv.1)) :
    (if c then dset (dset X "model" s1) "field" s2 else dset X "model" s1).filter
        (fun kv => keepChangeKey kv.1)
      = (if c then dset (dset Y "model" s1) "field" s2 else dset Y "model" s1).filter
        (fun kv => keepChangeKey kv.1) := by
  split
  · rw [filter_dset_keep _ "field" _ rfl, filter_dset_keep _ "model" _ rfl,
      filter_dset_keep _ "field" _ rfl, filter_dset_keep _ "model" _ rfl, h]
  · rw [filter_dset_keep _ "model" _ rfl, filter_dset_keep _ "model" _ rfl, h]

theorem filter_congr_unique_stage (c1 c2 c3 : Prop)
    [Decidable c1] [Decidable c2] [Decidable c3] (X Y : PDict)
    (h : X.filter (fun kv => keepChangeKey kv.1) = Y.filter (fun kv => keepChangeKey kv.1)) :
    (if c1 then
        (if c2 then dset X "unique" (.pstr "True")
         else if c3 then dset X "index" (.pstr "True") else X)
      else X).filter (fun kv => keepChangeKey kv.1)
      = (if c1 then
          (if c2 then dset Y "unique" (.pstr "True")
           else if c3 then dset Y "index" (.pstr "True") else Y)
        else Y).filter (fun kv => keepChangeKey kv.1) := by
  split
  · split
    · rw [filter_dset_keep _ "unique" _ rfl, filter_dset_keep _ "unique" _ rfl, h]
    · split
      · rw [filter_dset_keep _ "index" _ rfl, filter_dset_keep _ "index" _ rfl, h]
      · exact h
  · exact h

theorem columnSuperParams_filter_congr (f : Field) (rel : FKRel) (od ou : Option String)
    (E1 E2 : PDict)
    (h : E1.filter (fun kv => keepChangeKey kv.1) = E2.filter (fun kv => keepChangeKey kv.1)) :
    (columnSuperParams { f with fclass := .foreignKeyField rel od ou } E1).filter
        (fun kv => keepChangeKey kv.1)
      = (columnSuperParams { f with fclass := .foreignKeyField rel od ou } E2).filter
        (fun kv => keepChangeKey kv.1) := by
  unfold columnSuperParams
  dsimp only
  exact filter_congr_unique_stage _ _ _ _ _
    (filter_congr_model_stage _ _ _ _ _
      (filter_congr_ite_dset _ "primary_key" _ rfl _ _
        (filter_congr_ite_dset _ "column_name" _ rfl _ _
          (filter_congr_ite_dset _ "null" _ rfl _ _ h))))

theorem change_block_congr (P1 P2 : PDict) (nl : Bool)
    (h : P1.filter (fun kv => keepChangeKey kv.1) = P2.filter (fun kv => keepChangeKey kv.1)) :
    (let q := dset P1 "null" (.pbool nl)
     let u := truthy ((dget q "unique").getD (.pbool false))
     let q2 := dset (dpop q "unique") "unique" (.pbool u)
     let i := truthy ((dget q2 "index").getD (.pbool false))
     let q3 := dset (dpop q2 "index") "index" (.pbool (i || u))
     dpop (dpop (dpop q3 "default") "on_delete") "on_update")
    = (let q := dset P2 "null" (.pbool nl)
       let u := truthy ((dget q "unique").getD (.pbool false))
       let q2 := dset (dpop q "unique") "unique" (.pbool u)
       let i := truthy ((dget q2 "index").getD (.pbool false))
       let q3 := dset (dpop q2 "index") "index" (.pbool (i || u))
       dpop (dpop (dpop q3 "default") "on_delete") "on_update") := by
  dsimp only
  rw [dpop3_filter, dpop3_filter]
  have hq : (dset P1 "null" (.pbool nl)).filter (fun kv => keepChangeKey kv.1)
      = (dset P2 "null" (.pbool nl)).filter (fun kv => keepChangeKey kv.1) := by
    rw [filter_dset_keep _ "null" _ rfl, filter_dset_keep _ "null" _ rfl, h]
  have hu : dget (dset P1 "null" (.pbool nl)) "unique"
      = dget (dset P2 "null" (.pbool nl)) "unique" := by
    rw [← dget_filter_keep (dset P1 "null" (.pbool nl)) "unique" rfl,
      ← dget_filter_keep (dset P2 "null" (.pbool nl)) "unique" rfl, hq]
  rw [hu]
  have hq2 : (dset (dpop (dset P1 "null" (.pbool nl)) "unique") "unique"
        (.pbool (truthy ((dget (dset P2 "null" (.pbool nl)) "unique").getD
          (.pbool false))))).filter (fun kv => keepChangeKey kv.1)
      = (dset (dpop (dset P2 "null" (.pbool nl)) "unique") "unique"
        (.pbool (truthy ((dget (dset P2 "null" (.pbool nl)) "unique").getD
          (.pbool false))))).filter (fun kv => keepChangeKey kv.1) := by
    rw [filter_dset_keep _ "unique" _ rfl, filter_dset_keep _ "unique" _ rfl,
      filter_dpop_comm, filter_dpop_comm, hq]
  have hi : dget (dset (dpop (dset P1 "null" (.pbool nl)) "unique") "unique"
        (.pbool (truthy ((dget (dset P2 "null" (.pbool nl)) "unique").getD
          (.pbool false))))) "index"
      = dget (dset (dpop (dset P2 "null" (.pbool nl)) "unique") "unique"
        (.pbool (truthy ((dget (dset P2 "null" (.pbool nl)) "unique").getD
          (.pbool false))))) "index" := by
    rw [← dget_filter_keep (dset (dpop (dset P1 "null" (.pbool nl)) "unique") "unique" _)
        "index" rfl,
      ← dget_filter_keep (dset (dpop (dset P2 "null" (.pbool nl)) "unique") "unique" _)
        "index" rfl, hq2]
  rw [hi]
  rw [filter_dset_keep _ "index" _ rfl, filter_dset_keep _ "index" _ rfl,
    filter_dpop_comm, filter_dpop_comm, hq2]

theorem default_stage_congr (o : Option PValue) (X Y : PDict)
    (h : X.filter (fun kv => keepChangeKey kv.1) = Y.filter (fun kv => keepChangeKey kv.1)) :
    ((match o with | some v => dset X "default" v | none => X) : PDict).filter
        (fun kv => keepChangeKey kv.1)
      = ((match o with | some v => dset Y "default" v | none => Y) : PDict).filter
        (fun kv => keepChangeKey kv.1) := by
  cases o with
  | none => exact h
  | some v =>
    show (dset X "default" v).filter _ = (dset Y "default" v).filter _
    rw [filter_dset_drop _ "default" _ rfl, filter_dset_drop _ "default" _ rfl]
    exact h

theorem getFieldParameters_fk_extras (f : Field) (rel : FKRel) (od ou : Option String)
    (E1 E2 : PDict)
    (h : E1.filter (fun kv => keepChangeKey kv.1) = E2.filter (fun kv => keepChangeKey kv.1)) :
    getFieldParameters { f with fclass := .foreignKeyField rel od ou } E1 true
      = getFieldParameters { f with fclass := .foreignKeyField rel od ou } E2 true := by
  unfold getFieldParameters
  dsimp only
  refine change_block_congr _ _ _ ?_
  refine default_stage_congr _ _ _ ?_
  rw [filter_dpop_comm, filter_dpop_comm, columnSuperParams_filter_congr f rel od ou E1 E2 h]

theorem fieldToParams_fk_dropped (rel : FKRel) (od ou : Option String) :
    ∀ kv ∈ fieldToParams (.foreignKeyField rel od ou), keepChangeKey kv.1 = false := by
  intro kv hkv
  rcases od with _ | d <;> rcases ou with _ | u <;> simp [fieldToParams] at hkv
  · subst hkv; rfl
  · subst hkv; rfl
  · rcases hkv with hkv | hkv <;> (subst hkv; rfl)

theorem compareExtras_fk_filter (f : Field) (rel : FKRel) (od1 ou1 od2 ou2 : Option String) :
    (compareExtras { f with fclass := .foreignKeyField rel od1 ou1 }).filter
        (fun kv => keepChangeKey kv.1)
      = (compareExtras { f with fclass := .foreignKeyField rel od2 ou2 }).filter
        (fun kv => keepChangeKey kv.1) := by
  unfold compareExtras
  dsimp only
  rw [dmerge_filter_drop _ (fieldToParams_fk_dropped rel od1 ou1),
    dmerge_filter_drop _ (fieldToParams_fk_dropped rel od2 ou2)]

set_option maxHeartbeats 2000000 in
/-- Claim C4 (amended): two fields of the same declared foreign-key class
differing only in their on-delete/on-update policy compare as equal —
`compare_fields` reports an empty parameter-level difference, because change
mode pops `on_delete` and `on_update` (with `default`) from the diffed
parameters. -/
theorem claim_c4_amended (f : Field) (rel : FKRel) (od1 ou1 od2 ou2 : Option String) :
    compareFields { f with fclass := .foreignKeyField rel od1 ou1 }
      { f with fclass := .foreignKeyField rel od2 ou2 } = [] := by
  have hB : getFieldParameters { f with fclass := .foreignKeyField rel od2 ou2 }
        (compareExtras { f with fclass := .foreignKeyField rel od2 ou2 }) true
      = getFieldParameters { f with fclass := .foreignKeyField rel od1 ou1 }
        (compareExtras { f with fclass := .foreignKeyField rel od2 ou2 }) true := by
    unfold getFieldParameters columnSuperParams
    dsimp only [FieldClass.isAuto, FieldClass.isFK]
  have hp : getFieldParameters { f with fclass := .foreignKeyField rel od1 ou1 }
        (compareExtras { f with fclass := .foreignKeyField rel od1 ou1 }) true
      = getFieldParameters { f with fclass := .foreignKeyField rel od2 ou2 }
        (compareExtras { f with fclass := .foreignKeyField rel od2 ou2 }) true := by
    rw [hB]
    exact getFieldParameters_fk_extras f rel od1 ou1 _ _
      (compareExtras_fk_filter f rel od1 ou1 od2 ou2)
  unfold compareFields
  rw [show (decide (findFieldTypeName (FieldClass.foreignKeyField rel od1 ou1)
      ≠ findFieldTypeName (FieldClass.foreignKeyField rel od2 ou2))) = false from by
        simp [findFieldTypeName],
    if_neg Bool.false_ne_true]
  dsimp only
  rw [hp]
  refine List.filter_eq_nil_iff.mpr ?_
  intro a ha
  simp [ha]

/-- Claim C5 (amended): a flush that completes without error leaves the queue
empty, and the fake path of run_one leaves the queue empty when it completes;
but when a queued operation raises during the real flush, `Migrator.__call__`
re-raises and the queue retains its contents. -/
theorem claim_c5_amended :
    (∀ (exec : MOp → Except String Unit) (mig : MigratorSt) (db : List MOp),
        (migratorCall exec mig db).2.2 = none → (migratorCall exec mig db).1.ops = [])
    ∧ (∀ (exec : MOp → Except String Unit) (mig : MigratorSt) (db : List MOp) (e : String),
        (migratorCall exec mig db).2.2 = some e → (migratorCall exec mig db).1 = mig)
    ∧ (∀ (reader : String → Except String Migration) (exec : MOp → Except String Unit)
        (histExec : HistOp → Except String Unit) (name : String) (st : SysState)
        (dg fc : Bool) (r : String),
        (runOne reader exec histExec name st true dg fc).result = Except.ok r →
        (runOne reader exec histExec name st true dg fc).state.migrator.ops = []) := by
  refine ⟨?_, ?_, ?_⟩
  · intro exec mig db h
    unfold migratorCall at h ⊢
    rcases hrun : (runOps exec mig.ops db).2 with _ | e
    · simp only [hrun]
    · simp only [hrun] at h
      cases h
  · intro exec mig db e h
    unfold migratorCall at h ⊢
    rcases hrun : (runOps exec mig.ops db).2 with _ | e2
    · simp only [hrun] at h
      cases h
    · simp only [hrun]
  · intro reader exec histExec name st dg fc r h
    unfold runOne at h ⊢
    rcases hr : reader name with e | mig
    · simp only [hr] at h
      cases h
    · simp only [hr, if_true] at h ⊢
      rcases hap : applyActions mig.upgrade st.migrator with ⟨m2, oe⟩
      rcases oe with _ | e
      · simp only [hap] at h ⊢
        rcases hh : (if fc then histExec (HistOp.create name) else Except.ok ()) with e | u
        · simp only [hh] at h
          cases h
        · simp only [hh]
      · simp only [hap] at h
        cases h

/-- Claim C5 witness: a successful flush ends with an empty queue, a failing
flush keeps the queued operation, and a successful fake run clears the queue. -/
theorem claim_c5_amended_witness :
    (migratorCall execOk migQueued []).1.ops = []
    ∧ (migratorCall execBoom migQueued []).1 = migQueued
    ∧ (runOne readerW execOk histOk "001_author" sysEmpty true false false).state.migrator.ops
        = [] :=
  ⟨claim_c5_amended.1 execOk migQueued [] rfl,
   claim_c5_amended.2.1 execBoom migQueued [] "boom" rfl,
   claim_c5_amended.2.2 readerW execOk histOk "001_author" sysEmpty false false
     "001_author" rfl⟩

/-- Claim C6: in a real (non-fake) run_one, a failure raised while running the
migration body, flushing the queue, or updating the history table is re-raised
unchanged, the database trace and history are left as before the call (the
transaction is rolled back), and the failure is tagged Rollback when
downgrading and Migration otherwise; there is no retry (the run produces a
single error outcome). -/
theorem claim_c6_real_run_failure (reader : String → Except String Migration)
    (exec : MOp → Except String Unit) (histExec : HistOp → Except String Unit)
    (name : String) (st : SysState) (downgrade force : Bool) (mig : Migration)
    (hr : reader name = Except.ok mig) (e : String)
    (hfail :
      (applyActions (if downgrade then mig.downgrade else mig.upgrade) st.migrator).2 = some e
      ∨ ((applyActions (if downgrade then mig.downgrade else mig.upgrade) st.migrator).2 = none
          ∧ (migratorCall exec
              (applyActions (if downgrade then mig.downgrade else mig.upgrade) st.migrator).1
              st.db).2.2 = some e)
      ∨ ((applyActions (if downgrade then mig.downgrade else mig.upgrade) st.migrator).2 = none
          ∧ (migratorCall exec
              (applyActions (if downgrade then mig.downgrade else mig.upgrade) st.migrator).1
              st.db).2.2 = none
          ∧ histExec (if downgrade then HistOp.delete name else HistOp.create name)
              = Except.error e)) :
    (runOne reader exec histExec name st false downgrade force).result = Except.error e
    ∧ (runOne reader exec histExec name st false downgrade force).state.db = st.db
    ∧ (runOne reader exec histExec name st false downgrade force).state.history = st.history
    ∧ (runOne reader exec histExec name st false downgrade force).failTag
        = some (if downgrade then "Rollback" else "Migration") := by
  unfold runOne
  simp only [hr, Bool.false_eq_true, if_false]
  rcases hap : applyActions (if downgrade then mig.downgrade else mig.upgrade) st.migrator
    with ⟨m2, oe⟩
  rcases hfail with hfail | ⟨hnone, hfl⟩ | ⟨hnone, hfl, hh⟩
  · rw [hap] at hfail
    simp only at hfail
    subst hfail
    simp only [hap]
    exact ⟨trivial, trivial, trivial, rfl⟩
  · rw [hap] at hnone hfl
    simp only at hnone hfl
    subst hnone
    simp only [hap, hfl]
    exact ⟨trivial, trivial, trivial, rfl⟩
  · rw [hap] at hnone hfl
    simp only at hnone hfl
    subst hnone
    simp only [hap, hfl, hh]
    exact ⟨trivial, trivial, trivial, rfl⟩

/-- Claim C6 witness: a real run whose flush fails is rolled back, tagged
Migration, and re-raises the executor's error. -/
theorem claim_c6_witness :
    (runOne readerW execBoom histOk "001_author" sysEmpty false false false).result
        = Except.error "boom"
    ∧ (runOne readerW execBoom histOk "001_author" sysEmpty false false false).state.db = []
    ∧ (runOne readerW execBoom histOk "001_author" sysEmpty false false false).state.history
        = []
    ∧ (runOne readerW execBoom histOk "001_author" sysEmpty false false false).failTag
        = some "Migration" :=
  claim_c6_real_run_failure readerW execBoom histOk "001_author" sysEmpty false false
    migAuthor rfl "boom" (Or.inr (Or.inl ⟨rfl, rfl⟩))

theorem migratorCall_ok_fst (exec : MOp → Except String Unit) (mig : MigratorSt)
    (db : List MOp) (h : (migratorCall exec mig db).2.2 = none) :
    (migratorCall exec mig db).1 = { mig with ops := [] } := by
  unfold migratorCall at h ⊢
  rcases hrun : (runOps exec mig.ops db).2 with _ | e
  · simp only [hrun]
  · simp only [hrun] at h
    cases h

/-- Claim C7: a fake run_one never touches the database trace, leaves the
history unchanged when force is not set, and — whenever the real run of the
same migration succeeds — leaves the in-memory Migrator in exactly the state
the real run produces. -/
theorem claim_c7_fake_run (reader : String → Except String Migration)
    (exec : MOp → Except String Unit) (histExec : HistOp → Except String Unit)
    (name : String) (st : SysState) (dg : Bool) (mig : Migration)
    (hr : reader name = Except.ok mig) :
    (runOne reader exec histExec name st true dg false).state.db = st.db
    ∧ (runOne reader exec histExec name st true dg false).state.history = st.history
    ∧ ((runOne reader exec histExec name st false false false).result = Except.ok name →
        (runOne reader exec histExec name st true dg false).state.migrator
          = (runOne reader exec histExec name st false false false).state.migrator) := by
  unfold runOne
  simp only [hr, eq_self_iff_true, if_true, Bool.false_eq_true, if_false]
  rcases hap : applyActions mig.upgrade st.migrator with ⟨m2, oe⟩
  rcases oe with _ | e
  · simp only [hap]
    refine ⟨trivial, trivial, ?_⟩
    intro hok
    rcases hfl : (migratorCall exec m2 st.db).2.2 with _ | e2
    · simp only [hfl] at hok ⊢
      rcases hh : histExec (HistOp.create name) with e3 | u
      · simp only [hh] at hok
        cases hok
      · simp only [hh]
        rw [migratorCall_ok_fst exec m2 st.db hfl]
    · simp only [hfl] at hok
      cases hok
  · simp only [hap]
    refine ⟨trivial, trivial, ?_⟩
    intro hok
    cases hok

/-- Claim C7 witness: a fake run of the example migration matches the real run
in registry and leaves db and history untouched. -/
theorem claim_c7_witness :
    (runOne readerW execOk histOk "001_author" sysEmpty true false false).state.db = []
    ∧ (runOne readerW execOk histOk "001_author" sysEmpty true false false).state.history = []
    ∧ (runOne readerW execOk histOk "001_author" sysEmpty true false false).state.migrator
        = (runOne readerW execOk histOk "001_author" sysEmpty false false false).state.migrator := by
  have h := claim_c7_fake_run readerW execOk histOk "001_author" sysEmpty false migAuthor rfl
  exact ⟨h.1, h.2.1, h.2.2 rfl⟩

theorem filter_ne_getLast (l : List String) (a : String)
    (hl : l.getLast? = some a) (hc : l.count a = 1) :
    l.filter (fun n => n ≠ a) = l.dropLast := by
  have hne : l ≠ [] := by intro h0; rw [h0] at hl; cases hl
  have hlast : l.getLast hne = a := by
    have h2 := List.getLast?_eq_getLast l hne
    rw [h2] at hl
    exact Option.some.inj hl
  have hdecomp : l.dropLast ++ [a] = l := by
    rw [← hlast]
    exact List.dropLast_append_getLast hne
  have hcount0 : l.dropLast.count a = 0 := by
    have h3 : (l.dropLast ++ [a]).count a = 1 := by rw [hdecomp]; exact hc
    rw [List.count_append] at h3
    have h4 : List.count a [a] = 1 := by simp
    rw [h4] at h3
    omega
  have hnm : a ∉ l.dropLast := List.count_eq_zero.mp hcount0
  conv_lhs => rw [← hdecomp]
  rw [List.filter_append]
  have h5 : l.dropLast.filter (fun n => n ≠ a) = l.dropLast :=
    List.filter_eq_self.mpr (fun b hb => by
      simp
      intro hba
      exact hnm (hba ▸ hb))
  have h6 : ([a] : List String).filter (fun n => n ≠ a) = [] := by simp
  rw [h5, h6, List.append_nil]

/-- Claim C8: rollback on an empty history raises and leaves the whole state
(history, database trace and registry) unchanged; on a non-empty history whose
most recent name is unique, a successful rollback downgrades exactly that
migration and deletes exactly that history entry. -/
theorem claim_c8_rollback (reader : String → Except String Migration)
    (exec : MOp → Except String Unit) (histExec : HistOp → Except String Unit)
    (dialect : Dialect) (st : SysState) :
    (st.history = [] →
      (rollbackRouter reader exec histExec dialect st).result
          = Except.error "There is nothing to rollback"
        ∧ (rollbackRouter reader exec histExec dialect st).state = st
        ∧ (rollbackRouter reader exec histExec dialect st).realRuns = [])
    ∧ (∀ last, st.history.getLast? = some last → st.history.count last = 1 →
        (rollbackRouter reader exec histExec dialect st).result = Except.ok last →
        (rollbackRouter reader exec histExec dialect st).state.history = st.history.dropLast
          ∧ (rollbackRouter reader exec histExec dialect st).realRuns = [(last, true)]) := by
  constructor
  · intro h
    unfold rollbackRouter
    rw [if_pos h]
    exact ⟨rfl, rfl, rfl⟩
  · intro last hlast hcount hok
    have hne : st.history ≠ [] := by intro h0; rw [h0] at hlast; cases hlast
    have hname : st.history.getLast?.getD "" = last := by rw [hlast]; rfl
    unfold rollbackRouter at hok ⊢
    rw [if_neg hne] at hok ⊢
    rcases hb : buildMigrator reader dialect st.history with e | mig0
    · simp only [hb] at hok
      cases hok
    · simp only [hb, hname] at hok ⊢
      unfold runOne at hok ⊢
      rcases hr : reader last with e | mig
      · simp only [hr] at hok
        cases hok
      · simp only [hr, Bool.false_eq_true, if_false, eq_self_iff_true, if_true] at hok ⊢
        rcases hap : applyActions mig.downgrade mig0 with ⟨m2, oe⟩
        rcases oe with _ | e
        · rcases hfl : (migratorCall exec m2 st.db).2.2 with _ | e2
          · rcases hh : histExec (HistOp.delete last) with e3 | u
            · simp only [hap, hfl, hh] at hok
              cases hok
            · simp only [hap, hfl, hh] at hok ⊢
              exact ⟨filter_ne_getLast st.history last hlast hcount, trivial⟩
          · simp only [hap, hfl] at hok
            cases hok
        · simp only [hap] at hok
          cases hok

/-- Claim C8 witness: empty-history rollback errors without mutating anything;
rolling back the applied example migration deletes exactly its entry and
downgrades exactly it. -/
theorem claim_c8_witness :
    ((rollbackRouter readerW execOk histOk Dialect.postgres sysEmpty).result
        = Except.error "There is nothing to rollback"
      ∧ (rollbackRouter readerW execOk histOk Dialect.postgres sysEmpty).state = sysEmpty)
    ∧ ((rollbackRouter readerW execOk histOk Dialect.postgres sysW).state.history = []
      ∧ (rollbackRouter readerW execOk histOk Dialect.postgres sysW).realRuns
          = [("001_author", true)]) := by
  have h1 := (claim_c8_rollback readerW execOk histOk Dialect.postgres sysEmpty).1 rfl
  have h2 := (claim_c8_rollback readerW execOk histOk Dialect.postgres sysW).2
    "001_author" rfl (by decide) rfl
  exact ⟨⟨h1.1, h1.2.1⟩, ⟨h2.1, h2.2⟩⟩

/-- Claim C9 counterexample: a foreign-key replacement field whose uniqueness
flag differs from the registered field's produces no add-index operation and
leaves the registered index list untouched — change_fields stops after
re-adding the foreign-key constraint. -/
theorem claim_c9_counterexample :
    (changeFieldsOne modelC9 "owner" fldC9New).1.indexes = modelC9.indexes
    ∧ (changeFieldsOne modelC9 "owner" fldC9New).2 =
        [MOp.dropForeignKeyConstraint "pet" "owner_id",
         MOp.addForeignKeyConstraint "pet" "owner_id" "author" "id" "RESTRICT" "RESTRICT"]
    ∧ fldC9New.unique = true ∧ fldC9Old.unique = false
    ∧ modelC9.fields.find? (fun f => f.name = "owner") = some fldC9Old := by
  exact ⟨rfl, rfl, rfl, rfl, rfl⟩

/-- Claim C9 (amended): for a non-foreign-key replacement field whose
uniqueness flag differs from the registered field's, change_fields enqueues an
add-index on that single column and appends ((column,), True) to the model's
registered index list when the field becomes unique, and enqueues a drop-index
on that column and removes the first matching ((column,), True) entry when it
ceases to be unique; a foreign-key replacement instead re-adds its constraint
and performs no index maintenance. -/
theorem claim_c9_amended (m : Model) (name : String) (field0 old : Field)
    (hold : m.fields.find? (fun f => f.name = name) = some old)
    (hfk : field0.fclass.isFK = false)
    (hneq : ¬(field0.unique = old.unique)) :
    (field0.unique = true →
      (changeFieldsOne m name field0).1.indexes
          = m.indexes ++ [([(bindField name field0).columnName], true)]
        ∧ MOp.addIndex m.tableName [(bindField name field0).columnName] true
            ∈ (changeFieldsOne m name field0).2)
    ∧ (field0.unique = false →
      (changeFieldsOne m name field0).1.indexes
          = removeFirstIndex m.indexes ([(bindField name field0).columnName], true)
        ∧ MOp.dropIndex m.tableName (bindField name field0).columnName
            ∈ (changeFieldsOne m name field0).2) := by
  unfold changeFieldsOne
  rw [hold]
  simp only [Option.getD_some]
  have hfk2 : (bindField name field0).fclass.isFK = false := hfk
  have hbu : (bindField name field0).unique = field0.unique := rfl
  split
  · rename_i rel od ou heq
    rw [heq] at hfk2
    cases hfk2
  · refine ⟨fun hu => ?_, fun hu => ?_⟩
    · have hneu : ¬((bindField name field0).unique = old.unique) := by rw [hbu]; exact hneq
      rw [if_neg hneu, if_pos (hbu.trans hu)]
      constructor
      · simp [hbu, hu, metaAddField]
      · simp [hbu, hu]
    · have hneu : ¬((bindField name field0).unique = old.unique) := by rw [hbu]; exact hneq
      rw [if_neg hneu, if_neg (by rw [hbu, hu]; exact Bool.false_ne_true)]
      constructor
      · simp [hbu, hu, metaAddField]
      · simp [hbu, hu]

/-- Claim C9 witness: turning on uniqueness of a plain char field through
change_fields enqueues the single-column add-index and registers the index. -/
theorem claim_c9_amended_witness :
    (changeFieldsOne modelC9b "email" fldEmailUnique).1.indexes
        = modelC9b.indexes ++ [(["email"], true)]
    ∧ MOp.addIndex "member" ["email"] true
        ∈ (changeFieldsOne modelC9b "email" fldEmailUnique).2 :=
  (claim_c9_amended modelC9b "email" fldEmailUnique fldEmail rfl rfl (by decide)).1 rfl

/-- The list visitor inherits the `DfsSpec` invariant from its single-model
visitor. -/
theorem dfsListAux_spec (g : Model → DfsSt → DfsSt) (hg : DfsSpec g) :
    ∀ (l : List Model) (st : DfsSt),
      (∀ x ∈ st.seen, x ∈ (dfsListAux g l st).seen)
      ∧ (∃ new, (dfsListAux g l st).ord = st.ord ++ new ∧ new.Nodup
          ∧ (∀ x ∈ new, x ∉ st.seen) ∧ (∀ x ∈ new, x ∈ (dfsListAux g l st).seen))
      ∧ (∀ x ∈ (dfsListAux g l st).seen, x ∈ st.seen ∨ x ∈ (dfsListAux g l st).ord) := by
  intro l
  induction l with
  | nil =>
    intro st
    exact ⟨fun x hx => hx,
      ⟨[], by simp [dfsListAux], List.nodup_nil, by simp, by simp⟩,
      fun x hx => Or.inl hx⟩
  | cons r rs ih =>
    intro st
    rw [dfsListAux]
    obtain ⟨hm1, ⟨new1, ho1, hn1, hns1, hnr1⟩, hso1⟩ := hg r st
    obtain ⟨hm2, ⟨new2, ho2, hn2, hns2, hnr2⟩, hso2⟩ := ih (g r st)
    refine ⟨fun x hx => hm2 x (hm1 x hx), ⟨new1 ++ new2, ?_, ?_, ?_, ?_⟩, ?_⟩
    · rw [ho2, ho1, List.append_assoc]
    · rw [List.nodup_append]
      refine ⟨hn1, hn2, ?_⟩
      intro x hx1 hx2
      exact hns2 x hx2 (hnr1 x hx1)
    · intro x hx
      rcases List.mem_append.1 hx with hx | hx
      · exact hns1 x hx
      · intro hxs; exact hns2 x hx (hm1 x hxs)
    · intro x hx
      rcases List.mem_append.1 hx with hx | hx
      · exact hm2 x (hnr1 x hx)
      · exact hnr2 x hx
    · intro x hx
      rcases hso2 x hx with hx2 | hx2
      · rcases hso1 x hx2 with hx3 | hx3
        · exact Or.inl hx3
        · refine Or.inr ?_
          rw [ho2]
          exact List.mem_append.2 (Or.inl hx3)
      · exact Or.inr hx2

/-- Every fuelled `dfs` visitor of `sort_models` satisfies the invariant. -/
theorem dfsOne_spec (ms : List Model) : ∀ fuel, DfsSpec (dfsOne ms fuel) := by
  intro fuel
  induction fuel with
  | zero =>
    intro m st
    exact ⟨fun x hx => hx,
      ⟨[], by simp [dfsOne], List.nodup_nil, by simp, by simp⟩,
      fun x hx => Or.inl hx⟩
  | succ n ih =>
    intro m st
    rw [dfsOne]
    split
    · rename_i hg
      obtain ⟨hm1, ⟨new1, ho1, hn1, hns1, hnr1⟩, hso1⟩ :=
        dfsListAux_spec _ ih (modelRefs ms m) ⟨m :: st.seen, st.ord⟩
      dsimp only at hm1 ho1 hns1 hnr1 hso1 ⊢
      refine ⟨?_, ⟨new1 ++ [m], ?_, ?_, ?_, ?_⟩, ?_⟩
      · intro x hx
        exact hm1 x (List.mem_cons_of_mem _ hx)
      · rw [ho1, List.append_assoc]
      · rw [List.nodup_append]
        refine ⟨hn1, List.nodup_singleton m, ?_⟩
        intro x hx1 hx2
        rw [List.mem_singleton] at hx2
        subst hx2
        exact hns1 x hx1 (List.mem_cons_self _ _)
      · intro x hx
        rcases List.mem_append.1 hx with hx | hx
        · intro hxs
          exact hns1 x hx (List.mem_cons_of_mem _ hxs)
        · rw [List.mem_singleton] at hx
          subst hx
          exact hg.2
      · intro x hx
        rcases List.mem_append.1 hx with hx | hx
        · exact hnr1 x hx
        · rw [List.mem_singleton] at hx
          subst hx
          exact hm1 x (List.mem_cons_self _ _)
      · intro x hx
        rcases hso1 x hx with hx2 | hx2
        · rcases List.mem_cons.1 hx2 with rfl | hx3
          · exact Or.inr (List.mem_append.2 (Or.inr (List.mem_singleton.2 rfl)))
          · exact Or.inl hx3
        · exact Or.inr (List.mem_append.2 (Or.inl hx2))
    · exact ⟨fun x hx => hx,
        ⟨[], by simp, List.nodup_nil, by simp, by simp⟩,
        fun x hx => Or.inl hx⟩

/-- The ordering produced by `sort_models` has no duplicates. -/
theorem sortModels_nodup (ms : List Model) : (sortModels ms).Nodup := by
  obtain ⟨_, ⟨new, ho, hn, _, _⟩, _⟩ :=
    dfsListAux_spec _ (dfsOne_spec ms (ms.length + 1)) (sortByKey (dedupModels ms))
      ⟨[], []⟩
  dsimp only at ho
  unfold sortModels
  rw [ho]
  simpa using hn

/-- Membership through the root-sort insertion step. -/
theorem mem_insertByKey (x m : Model) (l : List Model) :
    x ∈ insertByKey m l ↔ x = m ∨ x ∈ l := by
  induction l with
  | nil => simp [insertByKey]
  | cons a t ih =>
    rw [insertByKey]
    split
    · simp [List.mem_cons]
    · rw [List.mem_cons, ih, List.mem_cons]
      tauto

/-- The root sort keeps every model. -/
theorem mem_sortByKey (x : Model) (l : List Model) (h : x ∈ l) : x ∈ sortByKey l := by
  induction l with
  | nil => cases h
  | cons a t ih =>
    rw [sortByKey]
    rcases List.mem_cons.1 h with rfl | h
    · exact (mem_insertByKey x x _).2 (Or.inl rfl)
    · exact (mem_insertByKey x a _).2 (Or.inr (ih h))

/-- Deduplication keeps every model. -/
theorem mem_dedupModels (x : Model) (l : List Model) (h : x ∈ l) : x ∈ dedupModels l := by
  induction l with
  | nil => cases h
  | cons a t ih =>
    rw [dedupModels]
    rcases List.mem_cons.1 h with rfl | h
    · exact List.mem_cons_self _ _
    · by_cases hxa : x = a
      · rw [hxa]; exact List.mem_cons_self _ _
      · refine List.mem_cons_of_mem _ ?_
        rw [List.mem_filter]
        exact ⟨ih h, by simp [hxa]⟩

/-- Every model of the collection appears in the `sort_models` ordering. -/
theorem sortModels_complete (ms : List Model) : ∀ x ∈ ms, x ∈ sortModels ms := by
  intro x hx
  have hvisit : ∀ (l : List Model) (st : DfsSt), ∀ r ∈ l, r ∈ ms →
      r ∈ (dfsListAux (fun r s => dfsOne ms (ms.length + 1) r s) l st).seen := by
    intro l
    induction l with
    | nil => intro st r hr; cases hr
    | cons a t ih =>
      intro st r hr hrms
      rw [dfsListAux]
      rcases List.mem_cons.1 hr with rfl | hr
      · have h1 : r ∈ (dfsOne ms (ms.length + 1) r st).seen := by
          rw [dfsOne]
          split
          · rename_i hg
            dsimp only
            obtain ⟨hm1, _, _⟩ :=
              dfsListAux_spec _ (dfsOne_spec ms ms.length) (modelRefs ms r)
                ⟨r :: st.seen, st.ord⟩
            exact hm1 r (List.mem_cons_self _ _)
          · rename_i hg
            by_cases hseen : r ∈ st.seen
            · exact hseen
            · exact absurd ⟨hrms, hseen⟩ hg
        obtain ⟨hm2, _, _⟩ :=
          dfsListAux_spec _ (dfsOne_spec ms (ms.length + 1)) t
            (dfsOne ms (ms.length + 1) r st)
        exact hm2 r h1
      · exact ih _ r hr hrms
  have hseen := hvisit (sortByKey (dedupModels ms)) ⟨[], []⟩ x
    (mem_sortByKey x _ (mem_dedupModels x ms hx)) hx
  obtain ⟨_, _, hso⟩ :=
    dfsListAux_spec _ (dfsOne_spec ms (ms.length + 1)) (sortByKey (dedupModels ms))
      ⟨[], []⟩
  rcases hso x hseen with h0 | h0
  · exact absurd h0 (by simp)
  · exact h0

/-- When all table names are distinct the dict built by `diff_many` is just the
association list of the models in order. -/
theorem buildMap_eq_map (l : List Model) (h : (l.map Model.tableName).Nodup) :
    buildMap l = l.map (fun m => (m.tableName, m)) := by
  unfold buildMap
  suffices haux : ∀ (l2 : List Model) (acc : List (String × Model)),
      (acc.map Prod.fst ++ l2.map Model.tableName).Nodup →
      l2.foldl (fun d m => insertMap d m.tableName m) acc
        = acc ++ l2.map (fun m => (m.tableName, m)) by
    have := haux l [] (by simpa using h)
    simpa using this
  intro l2
  induction l2 with
  | nil => intro acc _; simp
  | cons a t ih =>
    intro acc hacc
    rw [List.map_cons] at hacc
    rw [List.foldl_cons]
    have hnotin : ¬(acc.any (fun p => p.1 = a.tableName) = true) := by
      intro hany
      rcases List.any_eq_true.1 hany with ⟨p, hp, hpk⟩
      have hdisj := (List.nodup_append.1 hacc).2.2
      exact hdisj (List.mem_map_of_mem Prod.fst hp)
        (by rw [of_decide_eq_true hpk]; exact List.mem_cons_self _ _)
    have hins : insertMap acc a.tableName a = acc ++ [(a.tableName, a)] := by
      unfold insertMap
      rw [if_neg hnotin]
    rw [hins, ih]
    · simp
    · rw [List.map_append]
      have hre : (acc.map Prod.fst ++ [(a.tableName, a)].map Prod.fst)
            ++ t.map Model.tableName
          = acc.map Prod.fst ++ (a.tableName :: t.map Model.tableName) := by simp
      rw [hre]
      exact hacc

/-- Keys of the dict after one insertion. -/
theorem mem_keys_insertMap (acc : List (String × Model)) (k2 : String) (m : Model)
    (k : String) :
    (k ∈ (insertMap acc k2 m).map Prod.fst) ↔ k ∈ acc.map Prod.fst ∨ k = k2 := by
  rw [insertMap_fst_keys]
  split
  · rename_i hpres
    constructor
    · exact Or.inl
    · rintro (h | rfl)
      · exact h
      · rcases List.any_eq_true.1 hpres with ⟨p, hp, hpk⟩
        have hk := of_decide_eq_true hpk
        exact hk ▸ List.mem_map_of_mem Prod.fst hp
  · simp

/-- A name is a key of the built dict exactly when some model of the list bears
it as table name. -/
theorem mem_keys_buildMap (l : List Model) (k : String) :
    (k ∈ (buildMap l).map Prod.fst) ↔ ∃ m ∈ l, m.tableName = k := by
  unfold buildMap
  suffices aux : ∀ (l2 : List Model) (acc : List (String × Model)),
      (k ∈ ((l2.foldl (fun d m => insertMap d m.tableName m) acc).map Prod.fst))
        ↔ k ∈ acc.map Prod.fst ∨ ∃ m ∈ l2, m.tableName = k by
    simpa using aux l []
  intro l2
  induction l2 with
  | nil => intro acc; simp
  | cons a t ih =>
    intro acc
    rw [List.foldl_cons, ih, mem_keys_insertMap]
    constructor
    · rintro ((h | rfl) | ⟨m, hm, hmk⟩)
      · exact Or.inl h
      · exact Or.inr ⟨a, List.mem_cons_self _ _, rfl⟩
      · exact Or.inr ⟨m, List.mem_cons_of_mem _ hm, hmk⟩
    · rintro (h | ⟨m, hm, hmk⟩)
      · exact Or.inl (Or.inl h)
      · rcases List.mem_cons.1 hm with rfl | hm
        · exact Or.inl (Or.inr hmk.symm)
        · exact Or.inr ⟨m, hm, hmk⟩

/-- A dict lookup misses exactly when the name is not among the keys. -/
theorem lookupMap_none_iff (d : List (String × Model)) (k : String) :
    lookupMap d k = none ↔ k ∉ d.map Prod.fst := by
  unfold lookupMap
  constructor
  · intro h hk
    rcases List.mem_map.1 hk with ⟨p, hp, rfl⟩
    rcases hf : d.find? (fun q => q.1 = p.1) with _ | q
    · rw [List.find?_eq_none] at hf
      have hcontra := hf p hp
      simp at hcontra
    · rw [hf] at h
      cases h
  · intro h
    rcases hf : d.find? (fun q => q.1 = k) with _ | q
    · rw [hf]; rfl
    · have hq := List.find?_some hf
      have hqm := List.mem_of_find?_eq_some hf
      exact absurd ((of_decide_eq_true hq) ▸ List.mem_map_of_mem Prod.fst hqm) h

/-- Per-field change operations are never table removals. -/
theorem changeOpsFor_no_remove (model source : Model) (f : Field) :
    ∀ op ∈ changeOpsFor model source f, op.isRemove = false := by
  intro op hop
  unfold changeOpsFor at hop
  rcases hfind : source.fields.find? (fun sf => sf.name = f.name) with _ | sf
  · simp only [hfind] at hop
    cases hop
  · simp only [hfind] at hop
    split at hop
    · cases hop
    · rcases hg : dget (compareFields f sf) "null" with _ | v
      · simp only [hg] at hop
        rw [List.mem_singleton.1 hop]
        rfl
      · simp only [hg] at hop
        rcases List.mem_append.1 hop with hop | hop
        · rw [List.mem_singleton.1 hop]
          rfl
        · rw [List.mem_singleton.1 hop]
          split <;> rfl

/-- The field diff of one table emits no table removals. -/
theorem diffModelFields_no_remove (model source : Model) :
    ∀ op ∈ diffModelFields model source, op.isRemove = false := by
  intro op hop
  unfold diffModelFields at hop
  simp only at hop
  rcases List.mem_append.1 hop with hop | hop
  · rcases List.mem_append.1 hop with hop | hop
    · split at hop
      · cases hop
      · rw [List.mem_singleton.1 hop]; rfl
    · split at hop
      · cases hop
      · rw [List.mem_singleton.1 hop]; rfl
  · rcases List.mem_flatten.1 hop with ⟨ops, hops, hopin⟩
    rcases List.mem_map.1 hops with ⟨f, hf, rfl⟩
    exact changeOpsFor_no_remove model source f op hopin

/-- The index diff of one table emits no table removals. -/
theorem diffModelIndexes_no_remove (model source : Model) :
    ∀ op ∈ diffModelIndexes model source, op.isRemove = false := by
  intro op hop
  unfold diffModelIndexes at hop
  simp only at hop
  rcases List.mem_append.1 hop with hop2 | hop
  · rcases List.mem_append.1 hop2 with hop | hop
    · rcases List.mem_filterMap.1 hop with ⟨n, _, hsome⟩
      rcases Option.map_eq_some'.1 hsome with ⟨i, _, rfl⟩
      rfl
    · rcases List.mem_filterMap.1 hop with ⟨n, _, hsome⟩
      rcases Option.map_eq_some'.1 hsome with ⟨i, _, rfl⟩
      rfl
  · rcases List.mem_flatten.1 hop with ⟨ops, hops, hopin⟩
    rcases List.mem_map.1 hops with ⟨n, _, rfl⟩
    rcases h1 : (fieldsToIndex model).find? (fun i => i.name = n) with _ | i1 <;>
      rcases h2 : (fieldsToIndex source).find? (fun i => i.name = n) with _ | i2 <;>
      simp only [h1, h2] at hopin
    · cases hopin
    · cases hopin
    · cases hopin
    · split at hopin
      · rcases List.mem_cons.1 hopin with rfl | hopin
        · rfl
        · rw [List.mem_singleton.1 hopin]
          rfl
      · cases hopin

/-- `diff_model` emits no table removals. -/
theorem diffModel_no_remove (m s : Model) (ops : List Op)
    (h : diffModel m s = Except.ok ops) : ∀ op ∈ ops, op.isRemove = false := by
  unfold diffModel at h
  split at h
  · cases h
  · injection h with h2
    subst h2
    intro op hop
    rcases List.mem_append.1 hop with hop | hop
    · exact diffModelFields_no_remove m s op hop
    · exact diffModelIndexes_no_remove m s op hop

/-- The common-table section of `diff_many` emits no table removals. -/
theorem diffCommon_no_remove (M : List (String × Model)) :
    ∀ (l : List (String × Model)) (ops : List Op), diffCommon M l = Except.ok ops →
      ∀ op ∈ ops, op.isRemove = false := by
  intro l
  induction l with
  | nil =>
    intro ops h
    injection h with h2
    subst h2
    intro op hop
    cases hop
  | cons q t ih =>
    intro ops h
    obtain ⟨qk, qv⟩ := q
    rw [diffCommon] at h
    rcases hl : lookupMap M qk with _ | s
    · simp only [hl] at h
      exact ih ops h
    · simp only [hl] at h
      rcases hdm : diffModel qv s with e | ops1
      · simp only [hdm] at h
        cases h
      · simp only [hdm] at h
        rcases ht : diffCommon M t with e | more
        · simp only [ht] at h
          cases h
        · simp only [ht] at h
          injection h with h2
          subst h2
          intro op hop
          rcases List.mem_append.1 hop with hop | hop
          · exact diffModel_no_remove qv s ops1 hdm op hop
          · exact ih more ht op hop

/-- Claim C3 (amended): tables present in the source but not in the target give
rise to `remove_model` operations emitted after the per-table changes and the
create operations, in the dependencies-first topological order that
`sort_models` assigns to the source snapshot — the same order used for
creation, so a referenced table's drop can precede the drops of tables whose
foreign keys reference it. -/
theorem claim_c3_amended (target source : List Model)
    (hs : (source.map Model.tableName).Nodup) (ops : List Op)
    (heq : diffMany target source false = Except.ok ops) :
    ops.filter Op.isRemove
      = ((sortModels source).filter
          (fun m => target.all (fun t => t.tableName ≠ m.tableName))).map
        (fun m => Op.removeModel m.tableName) := by
  have h1 : ((sortModels source).map Model.tableName).Nodup := by
    refine List.Nodup.map_on ?_ (sortModels_nodup source)
    intro x hx y hy hxy
    exact List.inj_on_of_nodup_map hs (sortModels_subset source x hx)
      (sortModels_subset source y hy) hxy
  have heq2 : (match diffCommon (buildMap (sortModels source))
      (buildMap (sortModels target)) with
    | Except.error e => (Except.error e : Except String (List Op))
    | Except.ok changes =>
      Except.ok (changes
        ++ ((buildMap (sortModels target)).filter
              (fun p => (lookupMap (buildMap (sortModels source)) p.1).isNone)).map
            (fun p => Op.createModel p.2)
        ++ ((buildMap (sortModels source)).filter
              (fun p => (lookupMap (buildMap (sortModels target)) p.1).isNone)).map
            (fun p => Op.removeModel p.1))) = Except.ok ops := heq
  rcases hdc : diffCommon (buildMap (sortModels source)) (buildMap (sortModels target))
    with e | changes
  · simp only [hdc] at heq2
    cases heq2
  · simp only [hdc] at heq2
    injection heq2 with h2
    subst h2
    rw [List.filter_append, List.filter_append]
    have hch : changes.filter Op.isRemove = [] := by
      refine List.filter_eq_nil_iff.mpr ?_
      intro op hop
      have hno := diffCommon_no_remove _ _ _ hdc op hop
      simp [hno]
    have hcr : (((buildMap (sortModels target)).filter
          (fun p => (lookupMap (buildMap (sortModels source)) p.1).isNone)).map
        (fun p => Op.createModel p.2)).filter Op.isRemove = [] := by
      refine List.filter_eq_nil_iff.mpr ?_
      intro op hop
      rcases List.mem_map.1 hop with ⟨p, _, rfl⟩
      simp [Op.isRemove]
    have hrm : (((buildMap (sortModels source)).filter
          (fun p => (lookupMap (buildMap (sortModels target)) p.1).isNone)).map
        (fun p => Op.removeModel p.1)).filter Op.isRemove
        = ((buildMap (sortModels source)).filter
            (fun p => (lookupMap (buildMap (sortModels target)) p.1).isNone)).map
          (fun p => Op.removeModel p.1) := by
      refine List.filter_eq_self.mpr ?_
      intro op hop
      rcases List.mem_map.1 hop with ⟨p, _, rfl⟩
      rfl
    rw [hch, hcr, hrm]
    simp only [List.nil_append]
    rw [buildMap_eq_map _ h1]
    rw [List.filter_map, List.map_map]
    have hfil : (sortModels source).filter
          ((fun p => (lookupMap (buildMap (sortModels target)) p.1).isNone)
            ∘ (fun m => (m.tableName, m)))
        = (sortModels source).filter
          (fun m => target.all (fun t => t.tableName ≠ m.tableName)) := by
      refine List.filter_congr ?_
      intro m hm
      show (lookupMap (buildMap (sortModels target)) m.tableName).isNone
        = target.all (fun t => t.tableName ≠ m.tableName)
      rcases hlk : lookupMap (buildMap (sortModels target)) m.tableName with _ | v
      · rw [lookupMap_none_iff, mem_keys_buildMap] at hlk
        simp only [Option.isNone_none]
        symm
        rw [List.all_eq_true]
        intro t ht
        simp only [decide_eq_true_eq]
        intro he
        exact hlk ⟨t, sortModels_complete target t ht, he⟩
      · unfold lookupMap at hlk
        rcases hf : (buildMap (sortModels target)).find? (fun p => p.1 = m.tableName)
          with _ | p
        · rw [hf] at hlk
          cases hlk
        · have hp := List.mem_of_find?_eq_some hf
          have hpk0 := List.find?_some hf
          have hpk : p.1 = m.tableName := by simpa using hpk0
          obtain ⟨hmem, htn⟩ := buildMap_inv _ p hp
          have ht0 : p.2 ∈ target := sortModels_subset target p.2 hmem
          simp only [Option.isNone_some]
          symm
          rw [List.all_eq_false]
          exact ⟨p.2, ht0, by simp [htn, hpk]⟩
    rw [hfil]
    rfl

/-- Witness for the amended C3 statement at the concrete author--book snapshot. -/
theorem claim_c3_amended_witness :
    ([Op.removeModel "author", Op.removeModel "book"] : List Op).filter Op.isRemove
      = ((sortModels [modelAuthor, modelBook]).filter
          (fun m => ([] : List Model).all (fun t => t.tableName ≠ m.tableName))).map
        (fun m => Op.removeModel m.tableName) :=
  claim_c3_amended [] [modelAuthor, modelBook] (by decide) _ rfl

end PM
